import Mathlib

/-!
ruslog: a shallow embedding of the logger registry and its dispatch core

Sources embedded: `ruslog.go` (registry, `GetLevel`, `CallMethod`, `Setup`,
the leveled methods, `addFileInfo`), `appender.go` (the three built-in
appenders) and `formatter.go` (`SimpleFormatter.Format`).

Go maps are embedded as functions to `Option` (registries) or as the list of
their entries in enumeration order (field mappings); pointers to `Logger` are
addresses into an explicit heap; a Go panic is the `Except.error` branch.
A function value held in `Appender.Setup` is a name: one of the three
functions of `appender.go`, or a numbered function of the host application,
whose behaviour is an arbitrary transformer of the package state (`Host`).
The packages `logrus`, `rotator`, `fmt`, `strings` and `time` are external to
the repository; what the embedded code needs of them is stated below, next to
the place where it is used.
-/

set_option linter.dupNamespace false

namespace Ruslog

/-! ## Values and the Go standard library -/

/-- A dynamic Go value stored in a field mapping (`interface{}`): a string, an
integer, a boolean, or a value of any other type, kept as the text that the
`%s` verb of `fmt` prints for it. -/
inductive Value where
  | str (s : String)
  | int (i : Int)
  | bool (b : Bool)
  | other (shown : String)
  deriving DecidableEq, Repr

/-- What `fmt` prints for a value under the verb `%s`: a string is printed as
it is, and a value of a type the verb does not fit is printed in the
`%!s(type=value)` form. -/
def Value.fmtS : Value → String
  | .str s => s
  | .int i => "%!s(int=" ++ toString i ++ ")"
  | .bool b => "%!s(bool=" ++ (if b then "true" else "false") ++ ")"
  | .other shown => shown

/-- A field mapping (`map[string]interface{}`, `logrus.Fields`) as the list of
its entries in the order in which a `range` loop enumerates them. The keys of
a Go map are distinct; where that matters it is a hypothesis. A nil map is
`none` of `Option Fields`. -/
abbrev Fields := List (String × Value)

/-- The keys of a field mapping, in enumeration order. -/
def Fields.keys (m : Fields) : List String := m.map Prod.fst

/-- The map lookup `m[k]`. -/
def Fields.get (m : Fields) (k : String) : Option Value :=
  match m with
  | [] => none
  | (k', v') :: rest => if k' = k then some v' else Fields.get rest k

/-- The map assignment `m[k] = v`: the value of an existing key is replaced,
a new key gets an entry. -/
def Fields.set (m : Fields) (k : String) (v : Value) : Fields :=
  match m with
  | [] => [(k, v)]
  | (k', v') :: rest => if k' = k then (k, v) :: rest else (k', v') :: Fields.set rest k v

/-- The functions of the Go standard library and of the rotator package that
the embedded code calls and that are not computed here: `strings.ToLower`,
`fmt.Sprintf`, `time.Time.Format` (an instant is a number, a layout is a
string), and the two defaults `rotator.NewSizeRotator` starts from. -/
structure Lib where
  toLower : String → String
  sprintf : String → List Value → String
  timeFormat : Nat → String → String
  defaultRotationSize : Int
  defaultMaxRotation : Int

/-- An executable instance of the library, for evaluating the definitions on
concrete inputs: ASCII lower-casing, a `Sprintf` that gives the format back
(as the real one does for a format without verbs and no arguments), and
instants printed as their number. -/
def Lib.ascii : Lib where
  toLower := fun s => String.mk (s.data.map Char.toLower)
  sprintf := fun format _ => format
  timeFormat := fun t _ => toString t
  defaultRotationSize := 10485760
  defaultMaxRotation := 999

/-- The function `strings.ToUpper` on ASCII text. The code applies it to the
names of levels only, which are ASCII. -/
def ToUpper (s : String) : String := String.mk (s.data.map Char.toUpper)

/-- The function `strings.HasSuffix`. -/
def HasSuffix (s suffix : String) : Bool := suffix.data.isSuffixOf s.data

/-- The function `strings.Join`. -/
def Join (elems : List String) (sep : String) : String := sep.intercalate elems

/-- The panics of the embedded code: a nil pointer or nil function is used,
`GetLevel` panics with the error of the level parser, or
`reflect.Value.Call` rejects the arguments of the method it is to call. -/
inductive Panic where
  | nilDereference
  | invalidLevel (err : String)
  | reflectCall (method : String)
  deriving DecidableEq, Repr

deriving instance DecidableEq for Except

/-! ## logrus levels -/

/-- The type `logrus.Level` of the external package logrus: its severity
levels, in the order of their numeric values (`PanicLevel` is 0, `DebugLevel`
is 5). -/
inductive Level where
  | PanicLevel
  | FatalLevel
  | ErrorLevel
  | WarnLevel
  | InfoLevel
  | DebugLevel
  deriving DecidableEq, Repr

/-- The numeric value of a logrus level: the more severe, the smaller. -/
def Level.toNat : Level → Nat
  | .PanicLevel => 0
  | .FatalLevel => 1
  | .ErrorLevel => 2
  | .WarnLevel => 3
  | .InfoLevel => 4
  | .DebugLevel => 5

/-- The name `logrus.Level.String` gives a level. -/
def Level.String : Level → String
  | .PanicLevel => "panic"
  | .FatalLevel => "fatal"
  | .ErrorLevel => "error"
  | .WarnLevel => "warning"
  | .InfoLevel => "info"
  | .DebugLevel => "debug"

/-- The function `logrus.ParseLevel` of the external package logrus, as its
API documents it: a `switch` over the names it accepts, matched exactly; any
other string is an error. -/
def ParseLevel (lvl : String) : Except String Level :=
  if lvl = "panic" then .ok .PanicLevel
  else if lvl = "fatal" then .ok .FatalLevel
  else if lvl = "error" then .ok .ErrorLevel
  else if lvl = "warn" ∨ lvl = "warning" then .ok .WarnLevel
  else if lvl = "info" then .ok .InfoLevel
  else if lvl = "debug" then .ok .DebugLevel
  else .error ("not a valid logrus Level: " ++ lvl)

/-- The function `GetLevel` of `ruslog.go`: parse the lower-cased name, panic
with the error of the parser when there is one. -/
def GetLevel (lib : Lib) (level : String) : Except Panic Level :=
  match ParseLevel (lib.toLower level) with
  | .ok l => .ok l
  | .error err => .error (.invalidLevel err)

/-! ## Formatters (`formatter.go`) -/

/-- The constant `FORMATTER_SIMPLE`. -/
def FORMATTER_SIMPLE : String := "Simple"
/-- The constant `FORMATTER_JSON`. -/
def FORMATTER_JSON : String := "JSON"
/-- The constant `FORMATTER_TEXT`. -/
def FORMATTER_TEXT : String := "Text"

/-- The constant `defaultTimestampFormat`, which is `time.RFC3339`. -/
def defaultTimestampFormat : String := "2006-01-02T15:04:05Z07:00"

/-- The fields of `logrus.Entry` a formatter reads: the record to render. -/
structure Entry where
  Time : Nat
  Level : Level
  Message : String
  Data : Fields

/-- The struct `SimpleFormatter`. -/
structure SimpleFormatter where
  TimestampFormat : String := ""
  deriving DecidableEq, Repr

/-- One turn of the `range entry.Data` loop of `SimpleFormatter.Format`: the
token ` key=value` is appended to the buffer unless the key is reserved. -/
def SimpleFormatter.writeField (b : String) (kv : String × Value) : String :=
  if kv.1 ≠ "time" ∧ kv.1 ≠ "level" ∧ kv.1 ≠ "msg" then
    b ++ (" " ++ kv.1 ++ "=" ++ kv.2.fmtS)
  else b

/-- The method `SimpleFormatter.Format`: the bytes of the buffer and the
error, which is always nil (`none`). The entries of `entry.Data` are visited
in the order in which the map enumerates them. -/
def SimpleFormatter.Format (lib : Lib) (f : SimpleFormatter) (entry : Entry) :
    String × Option String :=
  let b := ""
  let timestampFormat :=
    if f.TimestampFormat = "" then defaultTimestampFormat else f.TimestampFormat
  let b := b ++ ("[" ++ lib.timeFormat entry.Time timestampFormat ++ "]")
  let b := b ++ (" [" ++ ToUpper entry.Level.String ++ "]")
  let b := b ++ (" " ++ entry.Message)
  let b := entry.Data.foldl SimpleFormatter.writeField b
  let b := b.push '\n'
  (b, none)

/-- A value of the interface `logrus.Formatter`: the simple formatter of this
repository, the two formatters of logrus (whose rendering is not part of the
repository), or a formatter supplied by the host application. -/
inductive LogrusFormatter where
  | simple (f : SimpleFormatter)
  | text
  | json
  | custom (render : Entry → String × Option String)

/-- The struct `Formatter`: a name and the formatter it stands for (a nil
interface value is `none`). -/
structure Formatter where
  Name : String
  Formatter : Option LogrusFormatter

/-! ## The logrus logger and its entries -/

/-- The destination a `logrus.Logger` writes to (`Out`): the standard error
stream that `logrus.New` starts with, or one of the two rotators. -/
inductive Sink where
  | stderr
  | sizeRotator (path : String) (RotationSize : Int) (MaxRotation : Int)
  | dailyRotator (path : String)
  deriving DecidableEq, Repr

/-- The fields of `logrus.Logger` the repository sets and reads. -/
structure LogrusLogger where
  Out : Sink
  Formatter : Option LogrusFormatter
  Level : Level

/-- The logger `logrus.New` of the external package logrus returns: standard
error, the text formatter, the Info level. -/
def LogrusLogger.New : LogrusLogger :=
  { Out := .stderr, Formatter := some .text, Level := .InfoLevel }

/-- The three spellings in which logrus offers each emission operation:
`Info`, `Infof`, `Infoln`. -/
inductive Style where
  | plain
  | f
  | ln
  deriving DecidableEq, Repr

/-- An exported method of `*logrus.Entry`: an emission operation of a level in
one of the three spellings, or a method that does not emit (`WithField`,
`WithFields`, `WithError`, `String`). -/
inductive EntryMethod where
  | emit (level : Level) (style : Style)
  | other
  deriving DecidableEq, Repr

/-- The exported methods of `*logrus.Entry`, as the API of the external
package logrus lists them: each emission operation in its three spellings
(`Print` logs at the Info level and `Warning` is the long name of `Warn`), and
the methods that do not emit. -/
def entryMethods : List (String × EntryMethod) :=
  [ ("String", .other), ("WithError", .other), ("WithField", .other), ("WithFields", .other),
    ("Debug", .emit .DebugLevel .plain), ("Print", .emit .InfoLevel .plain),
    ("Info", .emit .InfoLevel .plain), ("Warn", .emit .WarnLevel .plain),
    ("Warning", .emit .WarnLevel .plain), ("Error", .emit .ErrorLevel .plain),
    ("Fatal", .emit .FatalLevel .plain), ("Panic", .emit .PanicLevel .plain),
    ("Debugf", .emit .DebugLevel .f), ("Printf", .emit .InfoLevel .f),
    ("Infof", .emit .InfoLevel .f), ("Warnf", .emit .WarnLevel .f),
    ("Warningf", .emit .WarnLevel .f), ("Errorf", .emit .ErrorLevel .f),
    ("Fatalf", .emit .FatalLevel .f), ("Panicf", .emit .PanicLevel .f),
    ("Debugln", .emit .DebugLevel .ln), ("Println", .emit .InfoLevel .ln),
    ("Infoln", .emit .InfoLevel .ln), ("Warnln", .emit .WarnLevel .ln),
    ("Warningln", .emit .WarnLevel .ln), ("Errorln", .emit .ErrorLevel .ln),
    ("Fatalln", .emit .FatalLevel .ln), ("Panicln", .emit .PanicLevel .ln) ]

/-- The lookup `reflect.ValueOf(entry).MethodByName(name)` on a
`*logrus.Entry`: the exported method of that exact name; `none` is the
invalid `reflect.Value`. -/
def MethodByName (name : String) : Option EntryMethod :=
  entryMethods.lookup name

/-- An emission operation of an entry, called: the logger the entry belongs
to, the level of the operation, the message it logs and the fields of the
entry. What logrus does with it (compare the level with the threshold,
render, write, and leave the process after `Fatal` or panic after `Panic`) is
outside the repository; `EntryCall.bytes` gives the bytes it hands to the
sink. -/
structure EntryCall where
  logger : LogrusLogger
  level : Level
  message : String
  data : Fields

/-- The message an emission method logs when it is called with the one string
`message`: `fmt.Sprint` and `Sprintln` without its newline give the string
back, `Sprintf` takes it for the format. -/
def Style.message (lib : Lib) (style : Style) (message : String) : String :=
  match style with
  | .plain => message
  | .f => lib.sprintf message []
  | .ln => message

/-- Rendering of a record by a formatter. The output of the two logrus
formatters is not part of the repository and is left out (`none`). -/
def LogrusFormatter.Format (lib : Lib) (fm : LogrusFormatter) (entry : Entry) :
    Option (String × Option String) :=
  match fm with
  | .simple f => some (f.Format lib entry)
  | .custom render => some (render entry)
  | .text => none
  | .json => none

/-- The bytes an emission hands to the sink of its logger at the instant
`now`, as logrus documents its entries: nothing when the level of the logger
is below the level of the operation (numerically smaller), otherwise the
rendering of the record by the formatter of the logger. -/
def EntryCall.bytes (lib : Lib) (now : Nat) (c : EntryCall) : Option String :=
  if c.level.toNat ≤ c.logger.Level.toNat then
    match c.logger.Formatter with
    | none => none
    | some fm =>
      (fm.Format lib { Time := now, Level := c.level, Message := c.message, Data := c.data }).map
        Prod.fst
  else none

/-! ## Loggers, the heap and the registries (`ruslog.go`, `appender.go`) -/

/-- The constant `APPENDER_DEFAULT`. -/
def APPENDER_DEFAULT : String := "None"
/-- The constant `APPENDER_SIZE`. -/
def APPENDER_SIZE : String := "Size"
/-- The constant `APPENDER_DAILY`. -/
def APPENDER_DAILY : String := "Daily"

/-- The constant `ruslogFileName`. -/
def ruslogFileName : String := "github.com/audrius-paskevicius/ruslog/ruslog.go"
/-- The constant `appenderFileName`. -/
def appenderFileName : String := "github.com/audrius-paskevicius/ruslog/appender.go"

/-- A pointer to a `Logger`: an address of the heap. -/
abbrev Addr := Nat

/-- A function value held in `Logger.Call` or `Logger.Callf`: the closure that
`defaultAppender` builds over the logger `l` it wires, or a function bound by
a setup of the host application, given by the entry operation it calls. -/
inductive CallFn (α : Type) where
  | ofDefaultAppender (l : Addr)
  | custom (run : String → Option Fields → α → Except Panic EntryCall)

/-- The struct `Logger` (its field `Type` is `Type_` here). The function
fields `Call` and `Callf` and the
pointer `logrus` are nil (`none`) until an appender wires the logger; the
mutex is not modelled. -/
structure Logger where
  Name : String
  Type_ : String := ""
  Format : String := ""
  Level : String := ""
  FilePath : String := ""
  RotationSize : Int := 0
  MaxRotation : Int := 0
  AddFileInfo : Bool := false
  Call : Option (CallFn (List String)) := none
  Callf : Option (CallFn (String × List Value)) := none
  logrus : Option LogrusLogger := none

/-- The heap of `Logger` structs: the struct at each allocated address, and
the address the next allocation gets. -/
structure Heap where
  cell : Addr → Option Logger
  next : Addr

/-- The empty heap. Address 0 is never allocated. -/
def Heap.empty : Heap := { cell := fun _ => none, next := 1 }

/-- The store `*l = v`. -/
def Heap.set (h : Heap) (l : Addr) (v : Logger) : Heap :=
  { h with cell := fun a => if a = l then some v else h.cell a }

/-- The allocation `&Logger{...}`: the new pointer and the heap holding it. -/
def Heap.alloc (h : Heap) (v : Logger) : Addr × Heap :=
  (h.next, { cell := fun a => if a = h.next then some v else h.cell a, next := h.next + 1 })

/-- A function value of type `func(logger *Logger) *Logger` held in
`Appender.Setup`: one of the three functions of `appender.go`, or a function
of the host application, named by a number. -/
inductive SetupRef where
  | defaultAppender
  | sizeRollingFileAppender
  | dailyRollingFileAppender
  | host (id : Nat)
  deriving DecidableEq, Repr

/-- The struct `Appender`; a nil `Setup` is `none`. -/
structure Appender where
  Name : String
  Setup : Option SetupRef

/-- The package state: the heap, the flag `DEBUG`, and the three maps
`Logging.loggers`, `Appenders` and `Formatters`. A key that is absent and a
key bound to a nil pointer both read as `none`. -/
structure State where
  heap : Heap
  DEBUG : Bool
  loggers : String → Option Addr
  Appenders : String → Option Appender
  Formatters : String → Option Formatter

/-- What running a `func(logger *Logger) *Logger` does: from the package state
and the pointer it is given, a panic, or the package state it leaves and the
pointer it returns (nil is `none`). -/
abbrev SetupFn := State → Addr → Except Panic (State × Option Addr)

/-- The setup functions of the host application, by number. They may read and
write all of the package state. -/
abbrev Host := Nat → SetupFn

/-- The function `defaultAppender`: a new logrus logger gets the formatter
registered under `l.Format` and the level `GetLevel(l.Level)`; `Call` and
`Callf` are bound to closures over `l`; the logger `l` itself is returned. -/
def defaultAppender (lib : Lib) : SetupFn := fun s l =>
  match s.heap.cell l with
  | none => .error .nilDereference
  | some lg =>
    let log := LogrusLogger.New
    match s.Formatters lg.Format with
    | none => .error .nilDereference
    | some fm =>
      let log := { log with Formatter := fm.Formatter }
      match GetLevel lib lg.Level with
      | .error e => .error e
      | .ok lvl =>
        let log := { log with Level := lvl }
        let lg := { lg with Call := some (.ofDefaultAppender l) }
        let lg := { lg with Callf := some (.ofDefaultAppender l) }
        let lg := { lg with logrus := some log }
        .ok ({ s with heap := s.heap.set l lg }, some l)

/-- The function `sizeRollingFileAppender`. -/
def sizeRollingFileAppender (lib : Lib) : SetupFn := fun s l =>
  match defaultAppender lib s l with
  | .error e => .error e
  | .ok (_, none) => .error .nilDereference
  | .ok (s, some l) =>
    match s.heap.cell l with
    | none => .error .nilDereference
    | some lg =>
      let RotationSize := if lg.RotationSize > 0 then lg.RotationSize else lib.defaultRotationSize
      let MaxRotation := if lg.MaxRotation > 0 then lg.MaxRotation else lib.defaultMaxRotation
      let o := Sink.sizeRotator lg.FilePath RotationSize MaxRotation
      match lg.logrus with
      | none => .error .nilDereference
      | some log =>
        .ok ({ s with heap := s.heap.set l { lg with logrus := some { log with Out := o } } },
          some l)

/-- The function `dailyRollingFileAppender`. -/
def dailyRollingFileAppender (lib : Lib) : SetupFn := fun s l =>
  match defaultAppender lib s l with
  | .error e => .error e
  | .ok (_, none) => .error .nilDereference
  | .ok (s, some l) =>
    match s.heap.cell l with
    | none => .error .nilDereference
    | some lg =>
      match lg.logrus with
      | none => .error .nilDereference
      | some log =>
        let o := Sink.dailyRotator lg.FilePath
        .ok ({ s with heap := s.heap.set l { lg with logrus := some { log with Out := o } } },
          some l)

/-- The call of a function value held in `Appender.Setup`. -/
def SetupRef.run (lib : Lib) (host : Host) : SetupRef → SetupFn
  | .defaultAppender => Ruslog.defaultAppender lib
  | .sizeRollingFileAppender => Ruslog.sizeRollingFileAppender lib
  | .dailyRollingFileAppender => Ruslog.dailyRollingFileAppender lib
  | .host id => host id

/-- The initial value of `Appenders`. -/
def builtinAppenders : String → Option Appender := fun name =>
  if name = APPENDER_DEFAULT then
    some { Name := APPENDER_DEFAULT, Setup := some .defaultAppender }
  else if name = APPENDER_SIZE then
    some { Name := APPENDER_SIZE, Setup := some .sizeRollingFileAppender }
  else if name = APPENDER_DAILY then
    some { Name := APPENDER_DAILY, Setup := some .dailyRollingFileAppender }
  else none

/-- The initial value of `Formatters`. -/
def builtinFormatters : String → Option Formatter := fun name =>
  if name = FORMATTER_SIMPLE then
    some { Name := FORMATTER_SIMPLE, Formatter := some (.simple {}) }
  else if name = FORMATTER_TEXT then
    some { Name := FORMATTER_TEXT, Formatter := some .text }
  else if name = FORMATTER_JSON then
    some { Name := FORMATTER_JSON, Formatter := some .json }
  else none

/-- The package state after initialisation, over a heap of loggers the host
application has allocated. -/
def State.init (heap : Heap) : State :=
  { heap := heap, DEBUG := false, loggers := fun _ => none,
    Appenders := builtinAppenders, Formatters := builtinFormatters }

/-- The method `Logger.Setup`: the appender registered under the type of the
logger, or the one registered under `APPENDER_DEFAULT` when there is none,
sets the logger up. -/
def Logger.Setup (lib : Lib) (host : Host) (s : State) (logger : Addr) :
    Except Panic (State × Option Addr) :=
  match s.heap.cell logger with
  | none => .error .nilDereference
  | some lg =>
    let appender :=
      match s.Appenders lg.Type_ with
      | some a => some a
      | none => s.Appenders APPENDER_DEFAULT
    match appender with
    | none => .error .nilDereference
    | some a =>
      match a.Setup with
      | none => .error .nilDereference
      | some setup => setup.run lib host s logger

/-- The body of the loop of `Configure` for one logger: the registry entry of
the name of the logger becomes what `Setup` returns; with `DEBUG` set the
level of the logger is parsed for the diagnostic line (which is not
modelled). The name is read before `Setup` runs. -/
def Configure.step (lib : Lib) (host : Host) (s : State) (logger : Addr) : Except Panic State :=
  match s.heap.cell logger with
  | none => .error .nilDereference
  | some lg =>
    match Logger.Setup lib host s logger with
    | .error e => .error e
    | .ok (s, r) =>
      let s := { s with loggers := fun n => if n = lg.Name then r else s.loggers n }
      if s.DEBUG then
        match s.heap.cell logger with
        | none => .error .nilDereference
        | some lg =>
          match GetLevel lib lg.Level with
          | .error e => .error e
          | .ok _ => .ok s
      else .ok s

/-- The `for` loop of `Configure` over the loggers it is given. -/
def Configure.loop (lib : Lib) (host : Host) (s : State) (loggers : List Addr) :
    Except Panic State :=
  match loggers with
  | [] => .ok s
  | logger :: rest =>
    match Configure.step lib host s logger with
    | .error e => .error e
    | .ok s => Configure.loop lib host s rest

/-- A pointer to the struct `logging`. The package has one such struct, the
one the package variable `Logging` points to; its field `loggers` is the
field `loggers` of the package state. -/
inductive LoggingRef where
  | Logging
  deriving DecidableEq, Repr

/-- The map `p.loggers` of the struct a pointer to `logging` points to, in a
package state. -/
def LoggingRef.loggers (_ : LoggingRef) (s : State) : String → Option Addr := s.loggers

/-- The function `Configure`: the loop, then `return Logging`. -/
def Configure (lib : Lib) (host : Host) (s : State) (loggers : List Addr) :
    Except Panic (State × LoggingRef) :=
  match Configure.loop lib host s loggers with
  | .error e => .error e
  | .ok s => .ok (s, .Logging)

/-- The function `AddAppender`: the state after the call and the value it
returns, `Appenders[appender.Name]`. -/
def AddAppender (s : State) (appender : Appender) : State × Option Appender :=
  let s := { s with
    Appenders := fun n => if n = appender.Name then some appender else s.Appenders n }
  (s, s.Appenders appender.Name)

/-- The function `GetLogger`: the state after the call and the pointer it
returns. -/
def GetLogger (lib : Lib) (host : Host) (s : State) (name : String) :
    Except Panic (State × Addr) :=
  match s.loggers name with
  | some l => .ok (s, l)
  | none =>
    let (l, heap) := s.heap.alloc
      { Name := name, Type_ := APPENDER_DEFAULT, Level := "Info", Format := FORMATTER_TEXT }
    match Configure lib host { s with heap := heap } [l] with
    | .error e => .error e
    | .ok (s, _) => .ok (s, l)

/-- The function `CallMethod`: the entry is made by `WithFields` on the logrus
logger of the `Logger` (which dereferences it); the method of the entry named
`level` is called with the message when the entry has a method of that name,
and `entry.Debug` is called when it has none. A method that does not take one
string makes `reflect.Value.Call` panic. -/
def CallMethod (lib : Lib) (heap : Heap) (logger : Addr) (level : String) (message : String)
    (options : Option Fields) : Except Panic EntryCall :=
  match heap.cell logger with
  | none => .error .nilDereference
  | some lg =>
    match lg.logrus with
    | none => .error .nilDereference
    | some loggerLogrus =>
      let data := options.getD []
      let methodName := level
      match MethodByName methodName with
      | some (.emit lvl style) =>
        .ok { logger := loggerLogrus, level := lvl, message := style.message lib message,
              data := data }
      | some .other => .error (.reflectCall methodName)
      | none =>
        .ok { logger := loggerLogrus, level := .DebugLevel, message := message, data := data }

/-- A frame of the call stack as `runtime.Caller` reports it. -/
structure Frame where
  file : String
  line : Int
  deriving DecidableEq, Repr

/-- The loop of `addFileInfo` over the frames from `depth` outward: the first
frame whose file ends with neither internal file name gives the value of the
key `file`; when the frames run out (`ok` false) the value is `unknown`. -/
def addFileInfo.walk (options : Fields) : List Frame → Fields
  | [] => options.set "file" (.str "unknown")
  | fr :: rest =>
    if !HasSuffix fr.file appenderFileName && !HasSuffix fr.file ruslogFileName then
      options.set "file" (.str (fr.file ++ ":" ++ toString fr.line))
    else addFileInfo.walk options rest

/-- The method `Logger.addFileInfo`. The list `stack` holds the frames that
`runtime.Caller(1)`, `runtime.Caller(2)`, ... report, that is, the frames
above the one of `addFileInfo` itself. -/
def Logger.addFileInfo (l : Logger) (stack : List Frame) (options : Option Fields) :
    Option Fields :=
  if !l.AddFileInfo then options
  else
    let options := match options with
      | none => []
      | some m => m
    some (addFileInfo.walk options stack)

/-- The call `l.Call(level, options, messages)` of the function field. -/
def Logger.invokeCall (lib : Lib) (heap : Heap) (lg : Logger) (level : String)
    (options : Option Fields) (messages : List String) : Except Panic EntryCall :=
  match lg.Call with
  | none => .error .nilDereference
  | some (.ofDefaultAppender l) =>
    let message := Join messages " "
    CallMethod lib heap l level message options
  | some (.custom run) => run level options messages

/-- The call `l.Callf(level, options, format, args...)` of the function
field. -/
def Logger.invokeCallf (lib : Lib) (heap : Heap) (lg : Logger) (level : String)
    (options : Option Fields) (format : String) (args : List Value) : Except Panic EntryCall :=
  match lg.Callf with
  | none => .error .nilDereference
  | some (.ofDefaultAppender l) =>
    let message := lib.sprintf format args
    CallMethod lib heap l level message options
  | some (.custom run) => run level options (format, args)

/-! ## The synchronous leveled methods

Each takes the heap, the pointer `l`, and the frames above `addFileInfo`. -/

/-- The method `Logger.DebugSync`. -/
def Logger.DebugSync (lib : Lib) (heap : Heap) (stack : List Frame) (l : Addr)
    (options : Option Fields) (messages : List String) : Except Panic EntryCall :=
  match heap.cell l with
  | none => .error .nilDereference
  | some lg => lg.invokeCall lib heap "Debug" (lg.addFileInfo stack options) messages

/-- The method `Logger.InfoSync`. -/
def Logger.InfoSync (lib : Lib) (heap : Heap) (stack : List Frame) (l : Addr)
    (options : Option Fields) (messages : List String) : Except Panic EntryCall :=
  match heap.cell l with
  | none => .error .nilDereference
  | some lg => lg.invokeCall lib heap "Info" (lg.addFileInfo stack options) messages

/-- The method `Logger.WarnSync`. -/
def Logger.WarnSync (lib : Lib) (heap : Heap) (stack : List Frame) (l : Addr)
    (options : Option Fields) (messages : List String) : Except Panic EntryCall :=
  match heap.cell l with
  | none => .error .nilDereference
  | some lg => lg.invokeCall lib heap "Warn" (lg.addFileInfo stack options) messages

/-- The method `Logger.ErrorSync`. -/
def Logger.ErrorSync (lib : Lib) (heap : Heap) (stack : List Frame) (l : Addr)
    (options : Option Fields) (messages : List String) : Except Panic EntryCall :=
  match heap.cell l with
  | none => .error .nilDereference
  | some lg => lg.invokeCall lib heap "Error" (lg.addFileInfo stack options) messages

/-- The method `Logger.FatalSync`. -/
def Logger.FatalSync (lib : Lib) (heap : Heap) (stack : List Frame) (l : Addr)
    (options : Option Fields) (messages : List String) : Except Panic EntryCall :=
  match heap.cell l with
  | none => .error .nilDereference
  | some lg => lg.invokeCall lib heap "Fatal" (lg.addFileInfo stack options) messages

/-- The method `Logger.DebugfSync`. -/
def Logger.DebugfSync (lib : Lib) (heap : Heap) (stack : List Frame) (l : Addr)
    (options : Option Fields) (format : String) (args : List Value) : Except Panic EntryCall :=
  match heap.cell l with
  | none => .error .nilDereference
  | some lg => lg.invokeCallf lib heap "Debug" (lg.addFileInfo stack options) format args

/-- The method `Logger.InfofSync`. -/
def Logger.InfofSync (lib : Lib) (heap : Heap) (stack : List Frame) (l : Addr)
    (options : Option Fields) (format : String) (args : List Value) : Except Panic EntryCall :=
  match heap.cell l with
  | none => .error .nilDereference
  | some lg => lg.invokeCallf lib heap "Info" (lg.addFileInfo stack options) format args

/-- The method `Logger.WarnfSync`. -/
def Logger.WarnfSync (lib : Lib) (heap : Heap) (stack : List Frame) (l : Addr)
    (options : Option Fields) (format : String) (args : List Value) : Except Panic EntryCall :=
  match heap.cell l with
  | none => .error .nilDereference
  | some lg => lg.invokeCallf lib heap "Warn" (lg.addFileInfo stack options) format args

/-- The method `Logger.ErrorfSync`. -/
def Logger.ErrorfSync (lib : Lib) (heap : Heap) (stack : List Frame) (l : Addr)
    (options : Option Fields) (format : String) (args : List Value) : Except Panic EntryCall :=
  match heap.cell l with
  | none => .error .nilDereference
  | some lg => lg.invokeCallf lib heap "Error" (lg.addFileInfo stack options) format args

/-- The method `Logger.FatalfSync`. -/
def Logger.FatalfSync (lib : Lib) (heap : Heap) (stack : List Frame) (l : Addr)
    (options : Option Fields) (format : String) (args : List Value) : Except Panic EntryCall :=
  match heap.cell l with
  | none => .error .nilDereference
  | some lg => lg.invokeCallf lib heap "Fatal" (lg.addFileInfo stack options) format args


/-- The names `logrus.ParseLevel` accepts. -/
def levelNames : List String := ["panic", "fatal", "error", "warn", "warning", "info", "debug"]

/-- The five severity names of the specification. -/
def severityNames : List String := ["debug", "info", "warn", "error", "fatal"]

/-- A logger is wired when its struct is allocated and holds a logrus
logger. -/
def Wired (heap : Heap) (l : Addr) : Bool :=
  match heap.cell l with
  | some lg => lg.logrus.isSome
  | none => false

/-- The logger configuration of the end-to-end example of the specification:
the name `svc`, the default appender, the simple formatter, the level
Info. -/
def svcLogger : Logger :=
  { Name := "svc", Type_ := APPENDER_DEFAULT, Format := FORMATTER_SIMPLE, Level := "Info" }

/-- The heap that holds `svcLogger` alone, at address 1, not yet set up. -/
def svcHeap : Heap := (Heap.empty.alloc svcLogger).2

/-- The heap after `defaultAppender` has wired `svcLogger`. -/
def svcWired (lib : Lib) : Heap :=
  match defaultAppender lib (State.init svcHeap) 1 with
  | .ok (s, _) => s.heap
  | .error _ => svcHeap

/-- The keys `SimpleFormatter.Format` does not render as a token. -/
def SimpleFormatter.reserved (key : String) : Bool :=
  key = "time" ∨ key = "level" ∨ key = "msg"

/-- The token ` key=value` of a field. -/
def SimpleFormatter.token (kv : String × Value) : String :=
  " " ++ kv.1 ++ "=" ++ kv.2.fmtS

/-- The fields of a mapping that are rendered, in enumeration order. -/
def SimpleFormatter.rendered (data : Fields) : Fields :=
  data.filter (fun kv => !SimpleFormatter.reserved kv.1)

/-- The tokens of the rendered fields, in enumeration order. -/
def SimpleFormatter.tokens (data : Fields) : List String :=
  (SimpleFormatter.rendered data).map SimpleFormatter.token

/-- The preamble `[<timestamp>] [<SEVERITY>] <message>` of a record; the
timestamp is printed in the layout of the formatter, or in the default layout
when the formatter has none. -/
def SimpleFormatter.preamble (lib : Lib) (f : SimpleFormatter) (entry : Entry) : String :=
  "[" ++ lib.timeFormat entry.Time
      (if f.TimestampFormat = "" then defaultTimestampFormat else f.TimestampFormat) ++ "]"
    ++ " [" ++ ToUpper entry.Level.String ++ "]" ++ " " ++ entry.Message

/-- A frame is internal when its file ends with one of the two internal source
file names. -/
def Frame.internal (fr : Frame) : Bool :=
  HasSuffix fr.file appenderFileName || HasSuffix fr.file ruslogFileName

/-- The value recorded for the caller: `<file>:<line>` of the first frame,
walking outward, that is not internal, or `unknown` when there is none. -/
def callerInfo (stack : List Frame) : String :=
  match stack.find? (fun fr => !fr.internal) with
  | some fr => fr.file ++ ":" ++ toString fr.line
  | none => "unknown"

/-- The struct a logger becomes when `defaultAppender` wires it with the
formatter `fm` and the level `lvl`, `l` being its own address. -/
def wiredBy (lg : Logger) (l : Addr) (fm : Formatter) (lvl : Level) : Logger :=
  { lg with
    Call := some (.ofDefaultAppender l)
    Callf := some (.ofDefaultAppender l)
    logrus := some { Out := .stderr, Formatter := fm.Formatter, Level := lvl } }

/-- The struct a logger becomes when `sizeRollingFileAppender` has replaced the
output of the logrus logger that `defaultAppender` gave it. -/
def wiredBySize (lib : Lib) (lg : Logger) (l : Addr) (fm : Formatter) (lvl : Level) : Logger :=
  { wiredBy lg l fm lvl with
    logrus := some
      { Out := .sizeRotator lg.FilePath
          (if lg.RotationSize > 0 then lg.RotationSize else lib.defaultRotationSize)
          (if lg.MaxRotation > 0 then lg.MaxRotation else lib.defaultMaxRotation)
        Formatter := fm.Formatter
        Level := lvl } }

/-- The struct a logger becomes when `dailyRollingFileAppender` has replaced
the output of the logrus logger that `defaultAppender` gave it. -/
def wiredByDaily (lg : Logger) (l : Addr) (fm : Formatter) (lvl : Level) : Logger :=
  { wiredBy lg l fm lvl with
    logrus := some
      { Out := .dailyRotator lg.FilePath, Formatter := fm.Formatter, Level := lvl } }

/-- The heap `sizeRollingFileAppender` leaves: the logger at `l` wired by
`defaultAppender`, then given the size rotator. -/
def heapBySize (lib : Lib) (h : Heap) (lg : Logger) (l : Addr) (fm : Formatter) (lvl : Level) :
    Heap :=
  (h.set l (wiredBy lg l fm lvl)).set l (wiredBySize lib lg l fm lvl)

/-- The heap `dailyRollingFileAppender` leaves: the logger at `l` wired by
`defaultAppender`, then given the daily rotator. -/
def heapByDaily (h : Heap) (lg : Logger) (l : Addr) (fm : Formatter) (lvl : Level) : Heap :=
  (h.set l (wiredBy lg l fm lvl)).set l (wiredByDaily lg l fm lvl)

/-- The heap a built-in setup function leaves when it wires the logger at
`l`. -/
def heapByBuiltin (lib : Lib) (setup : SetupRef) (h : Heap) (lg : Logger) (l : Addr)
    (fm : Formatter) (lvl : Level) : Heap :=
  match setup with
  | .defaultAppender => h.set l (wiredBy lg l fm lvl)
  | .sizeRollingFileAppender => heapBySize lib h lg l fm lvl
  | .dailyRollingFileAppender => heapByDaily h lg l fm lvl
  | .host _ => h

/-- Whether a result is a panic. -/
def Aborts {α : Type} (r : Except Panic α) : Bool :=
  match r with
  | .error _ => true
  | .ok _ => false

/-- The name of the logger at an address of the heap, when there is one. -/
def Heap.name (h : Heap) (p : Addr) : Option String :=
  (h.cell p).map Logger.Name

/-- A host application without setup functions of its own: every number
stands for the function that returns the logger it is given. -/
def noHost : Host := fun _ s l => .ok (s, some l)

/-- The logger `GetLogger` allocates for a name it does not find. -/
def defaultLogger (name : String) : Logger :=
  { Name := name, Type_ := APPENDER_DEFAULT, Level := "Info", Format := FORMATTER_TEXT }

/-- A setup of a host application that wires a copy of the logger it is given,
as the default appender does, and returns the copy:
`c := *l; return defaultAppender(&c)`. -/
def copyingSetup (lib : Lib) : SetupFn := fun s l =>
  match s.heap.cell l with
  | none => .error .nilDereference
  | some lg =>
    let (c, heap) := s.heap.alloc lg
    defaultAppender lib { s with heap := heap } c

/-- A setup of a host application that gives the logger at the address
`other` the name `name`, then wires the logger it is given as the default
appender does: `other.Name = name; return defaultAppender(l)`. -/
def renamingSetup (lib : Lib) (other : Addr) (name : String) : SetupFn := fun s l =>
  match s.heap.cell other with
  | none => .error .nilDereference
  | some lg => defaultAppender lib { s with heap := s.heap.set other { lg with Name := name } } l

/-- A setup of a host application that asks the package for the logger named
`name`, then wires the logger it is given as the default appender does:
`GetLogger(name); return defaultAppender(l)`. -/
def lookingUpSetup (lib : Lib) (name : String) : SetupFn := fun s l =>
  match GetLogger lib noHost s name with
  | .error e => .error e
  | .ok (s, _) => defaultAppender lib s l

/-- A host application with three setup functions: 0 copies, 1 renames the
logger at address 2 to `a`, 2 looks the name `z` up. -/
def exampleHost (lib : Lib) : Host
  | 0 => copyingSetup lib
  | 1 => renamingSetup lib 2 "a"
  | 2 => lookingUpSetup lib "z"
  | _ => fun s l => .ok (s, some l)

/-- The initial package state after `AddAppender` has registered the copying
setup under the name of the default appender. -/
def copyingState : State :=
  (AddAppender (State.init Heap.empty) { Name := APPENDER_DEFAULT, Setup := some (.host 0) }).1

/-- The state `GetLogger` leaves when it is asked for the name `x` in
`copyingState`. -/
def copyingAfter (lib : Lib) : State :=
  match GetLogger lib (exampleHost lib) copyingState "x" with
  | .ok (s, _) => s
  | .error _ => copyingState

/-- The heap after `GetLogger` has allocated the default logger for a name and
a built-in setup function has wired it with the formatter `fm`. -/
def heapAfterGetLogger (lib : Lib) (setup : SetupRef) (s : State) (name : String)
    (fm : Formatter) : Heap :=
  heapByBuiltin lib setup (s.heap.alloc (defaultLogger name)).2 (defaultLogger name)
    s.heap.next fm .InfoLevel

/-- A logger is wired by a built-in appender when its struct is allocated,
its function fields are the closures of `defaultAppender` over the logger
itself, and it holds a logrus logger. -/
def WiredByBuiltin (heap : Heap) (l : Addr) (lg : Logger) (log : LogrusLogger) : Prop :=
  heap.cell l = some lg ∧ lg.Call = some (.ofDefaultAppender l) ∧
    lg.Callf = some (.ofDefaultAppender l) ∧ lg.logrus = some log

/-- The built-in formatter registered under `FORMATTER_SIMPLE`. -/
def simpleFormatter : Formatter :=
  { Name := FORMATTER_SIMPLE, Formatter := some (.simple {}) }

/-- The package state after `Configure` has been given `svcLogger` alone in
the initial state: the logger is wired in place and registered. -/
def svcState : State :=
  { State.init svcHeap with
    heap := svcHeap.set 1 (wiredBy svcLogger 1 simpleFormatter .InfoLevel)
    loggers := fun n => if n = "svc" then some 1 else none }


/-! ## Theorems -/

/-! ### Level names -/

theorem ParseLevel_ok_iff (x : String) (l : Level) :
    ParseLevel x = .ok l ↔
      (x = "panic" ∧ l = .PanicLevel) ∨ (x = "fatal" ∧ l = .FatalLevel) ∨
      (x = "error" ∧ l = .ErrorLevel) ∨ ((x = "warn" ∨ x = "warning") ∧ l = .WarnLevel) ∨
      (x = "info" ∧ l = .InfoLevel) ∨ (x = "debug" ∧ l = .DebugLevel) := by
  unfold ParseLevel
  by_cases h1 : x = "panic"
  · subst h1; cases l <;> simp
  by_cases h2 : x = "fatal"
  · subst h2; cases l <;> simp
  by_cases h3 : x = "error"
  · subst h3; cases l <;> simp
  by_cases h4 : x = "warn" ∨ x = "warning"
  · rcases h4 with h4 | h4 <;> subst h4 <;> cases l <;> simp
  by_cases h5 : x = "info"
  · subst h5; cases l <;> simp
  by_cases h6 : x = "debug"
  · subst h6; cases l <;> simp
  have h4a : x ≠ "warn" := fun h => h4 (Or.inl h)
  have h4b : x ≠ "warning" := fun h => h4 (Or.inr h)
  simp [h1, h2, h3, h4a, h4b, h5, h6]

theorem GetLevel_ok_iff (lib : Lib) (s : String) (l : Level) :
    GetLevel lib s = .ok l ↔ ParseLevel (lib.toLower s) = .ok l := by
  unfold GetLevel
  cases h : ParseLevel (lib.toLower s) <;> simp

theorem GetLevel_error_iff (lib : Lib) (s : String) :
    (∃ e, GetLevel lib s = .error e) ↔ lib.toLower s ∉ levelNames := by
  constructor
  · rintro ⟨e, he⟩ hmem
    have hok : ∃ l, ParseLevel (lib.toLower s) = .ok l := by
      simp only [levelNames, List.mem_cons, List.mem_singleton, List.not_mem_nil,
        or_false] at hmem
      rcases hmem with h | h | h | h | h | h | h <;> rw [h] <;> exact ⟨_, rfl⟩
    obtain ⟨l, hl⟩ := hok
    rw [(GetLevel_ok_iff lib s l).2 hl] at he
    cases he
  · intro hmem
    cases h : GetLevel lib s with
    | error e => exact ⟨e, rfl⟩
    | ok l =>
      exfalso
      apply hmem
      have := (ParseLevel_ok_iff _ l).1 ((GetLevel_ok_iff lib s l).1 h)
      simp only [levelNames, List.mem_cons, List.mem_singleton, List.not_mem_nil, or_false]
      rcases this with ⟨h, _⟩ | ⟨h, _⟩ | ⟨h, _⟩ | ⟨h | h, _⟩ | ⟨h, _⟩ | ⟨h, _⟩ <;> simp [h]

/-- C3, as the claim states it, fails: the names `panic` and `warning` are
none of debug, info, warn, error, fatal in any letter case, and `GetLevel`
returns a level for them instead of aborting. -/
theorem GetLevel_other_name_counterexample :
    Lib.ascii.toLower "panic" ∉ severityNames ∧
    GetLevel Lib.ascii "panic" = .ok .PanicLevel ∧
    Lib.ascii.toLower "Warning" ∉ severityNames ∧
    GetLevel Lib.ascii "Warning" = .ok .WarnLevel ∧
    ¬ (∀ s : String, Lib.ascii.toLower s ∉ severityNames →
        ∃ e, GetLevel Lib.ascii s = .error e) := by
  refine ⟨by decide, by decide, by decide, by decide, ?_⟩
  intro h
  obtain ⟨e, he⟩ := h "panic" (by decide)
  have h2 : GetLevel Lib.ascii "panic" = .ok .PanicLevel := by decide
  rw [h2] at he
  cases he

/-- C3, amended: `GetLevel s` returns the level that `logrus.ParseLevel` gives
the lower-cased `s`: Debug, Info, Warn, Error, Fatal exactly for the names
debug, info, warn (or warning), error, fatal, and Panic for panic; the result
is the same for two strings with the same lower-case form; the levels are
strictly ordered by severity, which in the numbering of logrus is the
decreasing order of their values (Debug 5, Info 4, Warn 3, Error 2, Fatal 1);
and `GetLevel s` panics exactly when the lower-cased `s` is none of the seven
names the parser accepts. -/
theorem GetLevel_spec (lib : Lib) (s : String) :
    (GetLevel lib s = .ok .DebugLevel ↔ lib.toLower s = "debug") ∧
    (GetLevel lib s = .ok .InfoLevel ↔ lib.toLower s = "info") ∧
    (GetLevel lib s = .ok .WarnLevel ↔ lib.toLower s = "warn" ∨ lib.toLower s = "warning") ∧
    (GetLevel lib s = .ok .ErrorLevel ↔ lib.toLower s = "error") ∧
    (GetLevel lib s = .ok .FatalLevel ↔ lib.toLower s = "fatal") ∧
    (GetLevel lib s = .ok .PanicLevel ↔ lib.toLower s = "panic") ∧
    (∀ t : String, lib.toLower t = lib.toLower s → GetLevel lib t = GetLevel lib s) ∧
    (Level.FatalLevel.toNat < Level.ErrorLevel.toNat ∧
      Level.ErrorLevel.toNat < Level.WarnLevel.toNat ∧
      Level.WarnLevel.toNat < Level.InfoLevel.toNat ∧
      Level.InfoLevel.toNat < Level.DebugLevel.toNat) ∧
    ((∃ e, GetLevel lib s = .error e) ↔ lib.toLower s ∉ levelNames) := by
  refine ⟨?_, ?_, ?_, ?_, ?_, ?_, ?_, ?_, ?_⟩
  · rw [GetLevel_ok_iff, ParseLevel_ok_iff]; simp
  · rw [GetLevel_ok_iff, ParseLevel_ok_iff]; simp
  · rw [GetLevel_ok_iff, ParseLevel_ok_iff]; simp
  · rw [GetLevel_ok_iff, ParseLevel_ok_iff]; simp
  · rw [GetLevel_ok_iff, ParseLevel_ok_iff]; simp
  · rw [GetLevel_ok_iff, ParseLevel_ok_iff]; simp
  · intro t ht
    unfold GetLevel
    rw [ht]
  · decide
  · exact GetLevel_error_iff lib s

/-- C3, amended, at concrete names: `WaRn` and `WARN` have the same lower-case
form and parse alike. -/
theorem GetLevel_spec_witness :
    Lib.ascii.toLower "WaRn" = Lib.ascii.toLower "WARN" ∧
      GetLevel Lib.ascii "WaRn" = GetLevel Lib.ascii "WARN" :=
  ⟨by decide, (GetLevel_spec Lib.ascii "WARN").2.2.2.2.2.2.1 "WaRn" (by decide)⟩


/-! ### Dispatch by name -/

theorem Wired_iff (heap : Heap) (l : Addr) :
    Wired heap l = true ↔ ∃ lg log, heap.cell l = some lg ∧ lg.logrus = some log := by
  unfold Wired
  cases h : heap.cell l with
  | none => simp
  | some lg =>
    cases h2 : lg.logrus with
    | none => simp [h2]
    | some log => simp [h2]

/-- C1, as the claim states it, fails: `Panic` and `String` are none of Debug,
Info, Warn, Error, Fatal, yet on a wired logger `CallMethod` with the name
`Panic` emits through the Panic operation, not the Debug one, and with the
name `String` it panics in `reflect.Value.Call`. -/
theorem CallMethod_other_name_counterexample :
    Wired (svcWired Lib.ascii) 1 = true ∧ "Panic" ∉ ["Debug", "Info", "Warn", "Error", "Fatal"] ∧
    "String" ∉ ["Debug", "Info", "Warn", "Error", "Fatal"] ∧
    (CallMethod Lib.ascii (svcWired Lib.ascii) 1 "Panic" "m" none).map EntryCall.level
      = .ok .PanicLevel ∧
    (CallMethod Lib.ascii (svcWired Lib.ascii) 1 "Debug" "m" none).map EntryCall.level
      = .ok .DebugLevel ∧
    CallMethod Lib.ascii (svcWired Lib.ascii) 1 "Panic" "m" none
      ≠ CallMethod Lib.ascii (svcWired Lib.ascii) 1 "Debug" "m" none ∧
    (CallMethod Lib.ascii (svcWired Lib.ascii) 1 "String" "m" none).map EntryCall.level
      = .error (.reflectCall "String") := by
  refine ⟨by rfl, by decide, by decide, by rfl, by rfl, ?_, by rfl⟩
  intro h
  have h2 := congrArg (fun r => r.map EntryCall.level) h
  have h3 : (Except.ok Level.PanicLevel : Except Panic Level) = .ok .DebugLevel := h2
  cases h3

/-- C1, amended: for every wired logger, message and field mapping and every
name that is not the name of an exported method of the logrus entry,
`CallMethod` does not panic and calls the Debug operation of the entry with
that message and those fields, which is what it does for the name `Debug`. -/
theorem CallMethod_unknown_name (lib : Lib) (heap : Heap) (logger : Addr) (name message : String)
    (options : Option Fields) (hw : Wired heap logger = true) (hname : MethodByName name = none) :
    CallMethod lib heap logger name message options
      = CallMethod lib heap logger "Debug" message options ∧
    ∃ log, (∃ lg, heap.cell logger = some lg ∧ lg.logrus = some log) ∧
      CallMethod lib heap logger name message options
        = .ok { logger := log, level := .DebugLevel, message := message,
                data := options.getD [] } := by
  obtain ⟨lg, log, hlg, hlog⟩ := (Wired_iff heap logger).1 hw
  have hD : MethodByName "Debug" = some (.emit .DebugLevel .plain) := by decide
  refine ⟨?_, log, ⟨lg, hlg, hlog⟩, ?_⟩
  · simp only [CallMethod, hlg, hlog, hname, hD, Style.message]
  · simp only [CallMethod, hlg, hlog, hname]

/-- C1, amended, at a concrete input: the name `Verbose` on the wired logger
`svc`. -/
theorem CallMethod_unknown_name_witness :
    Wired (svcWired Lib.ascii) 1 = true ∧ MethodByName "Verbose" = none ∧
    CallMethod Lib.ascii (svcWired Lib.ascii) 1 "Verbose" "m" (some [("user", .str "a")])
      = CallMethod Lib.ascii (svcWired Lib.ascii) 1 "Debug" "m" (some [("user", .str "a")]) :=
  ⟨by rfl, by decide, (CallMethod_unknown_name Lib.ascii (svcWired Lib.ascii) 1 "Verbose" "m"
    (some [("user", .str "a")]) (by rfl) (by decide)).1⟩


/-! ### The simple formatter -/

theorem writeField_foldl (data : Fields) (b : String) :
    data.foldl SimpleFormatter.writeField b
      = b ++ String.join (SimpleFormatter.tokens data) := by
  induction data generalizing b with
  | nil => apply String.ext; simp [SimpleFormatter.tokens, SimpleFormatter.rendered]
  | cons kv rest ih =>
    rw [List.foldl_cons, ih]
    apply String.ext
    by_cases h : kv.1 ≠ "time" ∧ kv.1 ≠ "level" ∧ kv.1 ≠ "msg"
    · have hr : SimpleFormatter.reserved kv.1 = false := by
        simp [SimpleFormatter.reserved, h.1, h.2.1, h.2.2]
      simp [SimpleFormatter.writeField, h, SimpleFormatter.tokens, SimpleFormatter.rendered,
        hr, SimpleFormatter.token, List.filter_cons]
    · have hr : SimpleFormatter.reserved kv.1 = true := by
        simp only [SimpleFormatter.reserved, decide_eq_true_eq]
        by_contra hc
        push_neg at hc
        exact h hc
      simp [SimpleFormatter.writeField, h, SimpleFormatter.tokens, SimpleFormatter.rendered,
        hr, List.filter_cons]

theorem Format_eq (lib : Lib) (f : SimpleFormatter) (entry : Entry) :
    f.Format lib entry
      = (SimpleFormatter.preamble lib f entry
          ++ String.join (SimpleFormatter.tokens entry.Data) ++ "\n", none) := by
  unfold SimpleFormatter.Format
  simp only [writeField_foldl]
  congr 1
  apply String.ext
  simp [SimpleFormatter.preamble]


theorem mem_rendered (data : Fields) (kv : String × Value) :
    kv ∈ SimpleFormatter.rendered data
      ↔ kv ∈ data ∧ kv.1 ≠ "time" ∧ kv.1 ≠ "level" ∧ kv.1 ≠ "msg" := by
  simp [SimpleFormatter.rendered, SimpleFormatter.reserved, List.mem_filter]

theorem rendered_keys_nodup (data : Fields) (hnd : data.keys.Nodup) :
    (SimpleFormatter.rendered data).keys.Nodup := by
  unfold Fields.keys at *
  exact List.Nodup.sublist (List.Sublist.map _ (List.filter_sublist data)) hnd

/-- C9: `SimpleFormatter.Format` returns no error; its bytes are the preamble
`[<timestamp>] [<SEVERITY in upper case>] <message>`, then one token
` key=value` for each element of the list of rendered fields, in enumeration
order, then a newline, which is the last byte; a field of the mapping is in
the list of rendered fields exactly when its key is none of time, level, msg,
and no key occurs twice in that list. -/
theorem SimpleFormatter_Format_grammar (lib : Lib) (f : SimpleFormatter) (entry : Entry)
    (hkeys : entry.Data.keys.Nodup) :
    (f.Format lib entry).2 = none ∧
    (f.Format lib entry).1
      = "[" ++ lib.timeFormat entry.Time
            (if f.TimestampFormat = "" then defaultTimestampFormat else f.TimestampFormat) ++ "]"
          ++ " [" ++ ToUpper entry.Level.String ++ "]" ++ " " ++ entry.Message
          ++ String.join ((SimpleFormatter.rendered entry.Data).map
              (fun kv => " " ++ kv.1 ++ "=" ++ kv.2.fmtS))
          ++ "\n" ∧
    (∀ kv : String × Value, kv ∈ SimpleFormatter.rendered entry.Data
      ↔ kv ∈ entry.Data ∧ kv.1 ≠ "time" ∧ kv.1 ≠ "level" ∧ kv.1 ≠ "msg") ∧
    (SimpleFormatter.rendered entry.Data).keys.Nodup ∧
    (f.Format lib entry).1.data.getLast? = some '\n' := by
  refine ⟨by rw [Format_eq], by rw [Format_eq]; rfl, mem_rendered entry.Data,
    rendered_keys_nodup entry.Data hkeys, ?_⟩
  rw [Format_eq]
  simp

/-- C9 at a concrete record: the fields `user` and `msg`, of which only the
first is rendered. -/
theorem SimpleFormatter_Format_grammar_witness :
    (Fields.keys [("user", Value.str "a"), ("msg", Value.str "x")]).Nodup ∧
    (SimpleFormatter.Format Lib.ascii {}
        { Time := 7, Level := .InfoLevel, Message := "started",
          Data := [("user", .str "a"), ("msg", .str "x")] }).1
      = "[7] [INFO] started user=a\n" :=
  ⟨by decide,
   ((SimpleFormatter_Format_grammar Lib.ascii {}
      { Time := 7, Level := .InfoLevel, Message := "started",
        Data := [("user", .str "a"), ("msg", .str "x")] } (by decide)).2.1).trans (by decide)⟩


theorem rendered_perm (d1 d2 : Fields) (h : d1.Perm d2) :
    (SimpleFormatter.rendered d1).Perm (SimpleFormatter.rendered d2) :=
  List.Perm.filter _ h

theorem tokens_perm (d1 d2 : Fields) (h : d1.Perm d2) :
    (SimpleFormatter.tokens d1).Perm (SimpleFormatter.tokens d2) :=
  List.Perm.map _ (rendered_perm d1 d2 h)

theorem join_data_perm (l1 l2 : List String) (h : l1.Perm l2) :
    (String.join l1).data.Perm (String.join l2).data := by
  rw [String.data_join, String.data_join]
  exact List.Perm.flatten (List.Perm.map _ h)

/-- C10, as the claim states it, fails: the mapping with the fields `a` and
`b` can be enumerated in two orders, and the two renderings of the same
record differ. -/
theorem SimpleFormatter_Format_order_counterexample :
    List.Perm [("a", Value.str "1"), ("b", Value.str "2")]
              [("b", Value.str "2"), ("a", Value.str "1")] ∧
    (SimpleFormatter.Format Lib.ascii {}
        { Time := 7, Level := .InfoLevel, Message := "m",
          Data := [("a", .str "1"), ("b", .str "2")] }).1 = "[7] [INFO] m a=1 b=2\n" ∧
    (SimpleFormatter.Format Lib.ascii {}
        { Time := 7, Level := .InfoLevel, Message := "m",
          Data := [("b", .str "2"), ("a", .str "1")] }).1 = "[7] [INFO] m b=2 a=1\n" ∧
    SimpleFormatter.Format Lib.ascii {}
        { Time := 7, Level := .InfoLevel, Message := "m",
          Data := [("a", .str "1"), ("b", .str "2")] }
      ≠ SimpleFormatter.Format Lib.ascii {}
        { Time := 7, Level := .InfoLevel, Message := "m",
          Data := [("b", .str "2"), ("a", .str "1")] } := by
  refine ⟨List.Perm.swap _ _ _, by decide, by decide, by decide⟩

/-- C10, amended: two renderings of the same timestamp, severity, message and
field mapping, the entries of the mapping being enumerated in two orders,
return no error, have the same preamble, have the same tokens up to their
order, end with the same newline and consist of the same bytes up to their
order; they are identical bytes when at most one field of the mapping is
rendered, and when the two enumerations are the same. -/
theorem SimpleFormatter_Format_deterministic_up_to_order (lib : Lib) (f : SimpleFormatter)
    (t : Nat) (lvl : Level) (msg : String) (d1 d2 : Fields) (h : d1.Perm d2) :
    let e1 : Entry := { Time := t, Level := lvl, Message := msg, Data := d1 }
    let e2 : Entry := { Time := t, Level := lvl, Message := msg, Data := d2 }
    (f.Format lib e1).2 = none ∧ (f.Format lib e2).2 = none ∧
    (f.Format lib e1).1
      = SimpleFormatter.preamble lib f e1 ++ String.join (SimpleFormatter.tokens d1) ++ "\n" ∧
    (f.Format lib e2).1
      = SimpleFormatter.preamble lib f e1 ++ String.join (SimpleFormatter.tokens d2) ++ "\n" ∧
    (SimpleFormatter.tokens d1).Perm (SimpleFormatter.tokens d2) ∧
    (f.Format lib e1).1.data.Perm (f.Format lib e2).1.data ∧
    ((SimpleFormatter.rendered d1).length ≤ 1 → f.Format lib e1 = f.Format lib e2) ∧
    (d1 = d2 → f.Format lib e1 = f.Format lib e2) := by
  intro e1 e2
  have hp : SimpleFormatter.preamble lib f e2 = SimpleFormatter.preamble lib f e1 := rfl
  refine ⟨by rw [Format_eq], by rw [Format_eq], by rw [Format_eq], by rw [Format_eq, hp],
    tokens_perm d1 d2 h, ?_, ?_, ?_⟩
  · rw [Format_eq, Format_eq, hp]
    simp only [String.data_append]
    exact List.Perm.append_right _ (List.Perm.append_left _ (join_data_perm _ _ (tokens_perm d1 d2 h)))
  · intro hlen
    have hperm := rendered_perm d1 d2 h
    have heq : SimpleFormatter.rendered d1 = SimpleFormatter.rendered d2 := by
      match hr : SimpleFormatter.rendered d1, hlen with
      | [], _ =>
        rw [hr] at hperm
        exact (List.Perm.nil_eq hperm)
      | [x], _ =>
        rw [hr] at hperm
        exact List.singleton_perm.1 hperm
      | _ :: _ :: _, hl => simp at hl
    rw [Format_eq, Format_eq, hp]
    simp only [SimpleFormatter.tokens, heq]
  · intro hd
    subst hd
    rfl

/-- C10, amended, at a concrete record with one rendered field (`msg` is
reserved), enumerated in two orders. -/
theorem SimpleFormatter_Format_deterministic_up_to_order_witness :
    List.Perm [("user", Value.str "a"), ("msg", Value.str "x")]
              [("msg", Value.str "x"), ("user", Value.str "a")] ∧
    (SimpleFormatter.rendered [("user", Value.str "a"), ("msg", Value.str "x")]).length ≤ 1 ∧
    SimpleFormatter.Format Lib.ascii {}
        { Time := 7, Level := .WarnLevel, Message := "m",
          Data := [("user", .str "a"), ("msg", .str "x")] }
      = SimpleFormatter.Format Lib.ascii {}
        { Time := 7, Level := .WarnLevel, Message := "m",
          Data := [("msg", .str "x"), ("user", .str "a")] } :=
  ⟨List.Perm.swap _ _ _, by decide,
   (SimpleFormatter_Format_deterministic_up_to_order Lib.ascii {} 7 .WarnLevel "m"
      [("user", .str "a"), ("msg", .str "x")] [("msg", .str "x"), ("user", .str "a")]
      (List.Perm.swap _ _ _)).2.2.2.2.2.2.1 (by decide)⟩


/-! ### The caller resolver -/

theorem Fields.get_set_self (m : Fields) (k : String) (v : Value) :
    (m.set k v).get k = some v := by
  induction m with
  | nil => simp [Fields.set, Fields.get]
  | cons kv rest ih =>
    obtain ⟨k', v'⟩ := kv
    by_cases h : k' = k
    · simp [Fields.set, Fields.get, h]
    · simp [Fields.set, Fields.get, h, ih]

theorem Fields.get_set_other (m : Fields) (k k2 : String) (v : Value) (hne : k2 ≠ k) :
    (m.set k v).get k2 = m.get k2 := by
  induction m with
  | nil => simp [Fields.set, Fields.get, Ne.symm hne]
  | cons kv rest ih =>
    obtain ⟨k', v'⟩ := kv
    by_cases h : k' = k
    · subst h
      simp [Fields.set, Fields.get, Ne.symm hne]
    · by_cases h2 : k' = k2
      · subst h2
        simp [Fields.set, Fields.get, h]
      · simp [Fields.set, Fields.get, h, h2, ih]

theorem walk_eq (options : Fields) (stack : List Frame) :
    addFileInfo.walk options stack = options.set "file" (.str (callerInfo stack)) := by
  induction stack with
  | nil => rfl
  | cons fr rest ih =>
    unfold addFileInfo.walk
    by_cases h : (!HasSuffix fr.file appenderFileName && !HasSuffix fr.file ruslogFileName) = true
    · have hi : fr.internal = false := by
        simp only [Frame.internal]
        simp only [Bool.and_eq_true, Bool.not_eq_true'] at h
        simp [h.1, h.2]
      simp [h, callerInfo, List.find?_cons, hi]
    · have hi : fr.internal = true := by
        simp only [Frame.internal]
        simp only [Bool.and_eq_true, Bool.not_eq_true', not_and, Bool.not_eq_false] at h
        by_cases ha : HasSuffix fr.file appenderFileName = true
        · simp [ha]
        · simp only [Bool.not_eq_true] at ha
          simp [h ha]
      rw [if_neg h, ih]
      simp [callerInfo, List.find?_cons, hi]

/-- C8: with `AddFileInfo` false, `addFileInfo` returns the mapping it is
given, nil included; with `AddFileInfo` true it returns a mapping (never nil)
in which every key other than `file` has the value it had (none, when the
given mapping is nil) and `file` is `<file>:<line>` of the first frame,
walking outward from the caller of `addFileInfo`, whose file ends with neither
internal source file name, or `unknown` when no frame qualifies. The function
is total: it never fails. -/
theorem addFileInfo_spec (l : Logger) (stack : List Frame) (options : Option Fields) :
    (l.AddFileInfo = false → l.addFileInfo stack options = options) ∧
    (l.AddFileInfo = true →
      ∃ m, l.addFileInfo stack options = some m ∧
        (∀ k, k ≠ "file" → m.get k = (options.getD []).get k) ∧
        m.get "file" = some (.str
          (match stack.find? (fun fr => !(HasSuffix fr.file appenderFileName
                                          || HasSuffix fr.file ruslogFileName)) with
           | some fr => fr.file ++ ":" ++ toString fr.line
           | none => "unknown"))) := by
  constructor
  · intro h
    simp [Logger.addFileInfo, h]
  · intro h
    refine ⟨(options.getD []).set "file" (.str (callerInfo stack)), ?_, ?_, ?_⟩
    · cases options <;> simp [Logger.addFileInfo, h, walk_eq]
    · intro k hk
      exact Fields.get_set_other _ _ _ _ hk
    · exact Fields.get_set_self _ _ _

/-- C8 at a concrete stack: two internal frames, then the frame of the
application at `main.go:42`. -/
theorem addFileInfo_spec_witness :
    ({ svcLogger with AddFileInfo := true } : Logger).AddFileInfo = true ∧
    ∃ m, ({ svcLogger with AddFileInfo := true } : Logger).addFileInfo
        [⟨"/go/src/github.com/audrius-paskevicius/ruslog/ruslog.go", 223⟩,
         ⟨"/go/src/github.com/audrius-paskevicius/ruslog/appender.go", 28⟩,
         ⟨"/app/main.go", 42⟩]
        (some [("user", .str "a")]) = some m ∧
      m.get "user" = some (.str "a") ∧ m.get "file" = some (.str "/app/main.go:42") := by
  refine ⟨rfl, ?_⟩
  obtain ⟨m, hm, hk, hf⟩ := (addFileInfo_spec { svcLogger with AddFileInfo := true }
        [⟨"/go/src/github.com/audrius-paskevicius/ruslog/ruslog.go", 223⟩,
         ⟨"/go/src/github.com/audrius-paskevicius/ruslog/appender.go", 28⟩,
         ⟨"/app/main.go", 42⟩]
        (some [("user", .str "a")])).2 rfl
  exact ⟨m, hm, (hk "user" (by decide)).trans (by decide), hf.trans (by decide)⟩


/-! ### Setup -/

theorem Heap.set_cell_self (h : Heap) (l : Addr) (v : Logger) : (h.set l v).cell l = some v := by
  simp [Heap.set]

theorem Heap.set_cell_other (h : Heap) (l a : Addr) (v : Logger) (ha : a ≠ l) :
    (h.set l v).cell a = h.cell a := by
  simp [Heap.set, ha]

theorem defaultAppender_ok (lib : Lib) (s : State) (l : Addr) (lg : Logger) (fm : Formatter)
    (lvl : Level) (hl : s.heap.cell l = some lg) (hf : s.Formatters lg.Format = some fm)
    (hv : GetLevel lib lg.Level = .ok lvl) :
    defaultAppender lib s l
      = .ok ({ s with heap := s.heap.set l (wiredBy lg l fm lvl) }, some l) := by
  simp only [defaultAppender, hl, hf, hv, wiredBy, LogrusLogger.New]

theorem defaultAppender_ok_inv (lib : Lib) (s s' : State) (l : Addr) (r : Option Addr)
    (h : defaultAppender lib s l = .ok (s', r)) :
    ∃ lg fm lvl, s.heap.cell l = some lg ∧ s.Formatters lg.Format = some fm ∧
      GetLevel lib lg.Level = .ok lvl ∧
      s' = { s with heap := s.heap.set l (wiredBy lg l fm lvl) } ∧ r = some l := by
  cases hl : s.heap.cell l with
  | none => simp [defaultAppender, hl] at h
  | some lg =>
    cases hf : s.Formatters lg.Format with
    | none => simp [defaultAppender, hl, hf] at h
    | some fm =>
      cases hv : GetLevel lib lg.Level with
      | error e => simp [defaultAppender, hl, hf, hv] at h
      | ok lvl =>
        rw [defaultAppender_ok lib s l lg fm lvl hl hf hv] at h
        simp only [Except.ok.injEq, Prod.mk.injEq] at h
        exact ⟨lg, fm, lvl, rfl, hf, hv, h.1.symm, h.2.symm⟩

theorem sizeRollingFileAppender_ok (lib : Lib) (s : State) (l : Addr) (lg : Logger)
    (fm : Formatter) (lvl : Level) (hl : s.heap.cell l = some lg)
    (hf : s.Formatters lg.Format = some fm) (hv : GetLevel lib lg.Level = .ok lvl) :
    sizeRollingFileAppender lib s l
      = .ok ({ s with heap := heapBySize lib s.heap lg l fm lvl }, some l) := by
  unfold sizeRollingFileAppender
  rw [defaultAppender_ok lib s l lg fm lvl hl hf hv]
  simp only [Heap.set_cell_self]
  rfl

theorem dailyRollingFileAppender_ok (lib : Lib) (s : State) (l : Addr) (lg : Logger)
    (fm : Formatter) (lvl : Level) (hl : s.heap.cell l = some lg)
    (hf : s.Formatters lg.Format = some fm) (hv : GetLevel lib lg.Level = .ok lvl) :
    dailyRollingFileAppender lib s l
      = .ok ({ s with heap := heapByDaily s.heap lg l fm lvl }, some l) := by
  unfold dailyRollingFileAppender
  rw [defaultAppender_ok lib s l lg fm lvl hl hf hv]
  simp only [Heap.set_cell_self]
  rfl

theorem sizeRollingFileAppender_ok_inv (lib : Lib) (s s' : State) (l : Addr) (r : Option Addr)
    (h : sizeRollingFileAppender lib s l = .ok (s', r)) :
    ∃ lg fm lvl, s.heap.cell l = some lg ∧ s.Formatters lg.Format = some fm ∧
      GetLevel lib lg.Level = .ok lvl ∧
      s' = { s with heap := heapBySize lib s.heap lg l fm lvl } ∧ r = some l := by
  cases hd : defaultAppender lib s l with
  | error e => simp [sizeRollingFileAppender, hd] at h
  | ok v =>
    obtain ⟨s1, r1⟩ := v
    obtain ⟨lg, fm, lvl, hl, hf, hv, _, _⟩ := defaultAppender_ok_inv lib s s1 l r1 hd
    rw [sizeRollingFileAppender_ok lib s l lg fm lvl hl hf hv] at h
    simp only [Except.ok.injEq, Prod.mk.injEq] at h
    exact ⟨lg, fm, lvl, hl, hf, hv, h.1.symm, h.2.symm⟩

theorem dailyRollingFileAppender_ok_inv (lib : Lib) (s s' : State) (l : Addr) (r : Option Addr)
    (h : dailyRollingFileAppender lib s l = .ok (s', r)) :
    ∃ lg fm lvl, s.heap.cell l = some lg ∧ s.Formatters lg.Format = some fm ∧
      GetLevel lib lg.Level = .ok lvl ∧
      s' = { s with heap := heapByDaily s.heap lg l fm lvl } ∧ r = some l := by
  cases hd : defaultAppender lib s l with
  | error e => simp [dailyRollingFileAppender, hd] at h
  | ok v =>
    obtain ⟨s1, r1⟩ := v
    obtain ⟨lg, fm, lvl, hl, hf, hv, _, _⟩ := defaultAppender_ok_inv lib s s1 l r1 hd
    rw [dailyRollingFileAppender_ok lib s l lg fm lvl hl hf hv] at h
    simp only [Except.ok.injEq, Prod.mk.injEq] at h
    exact ⟨lg, fm, lvl, hl, hf, hv, h.1.symm, h.2.symm⟩

theorem defaultAppender_aborts_iff (lib : Lib) (s : State) (l : Addr) (lg : Logger)
    (hl : s.heap.cell l = some lg) :
    Aborts (defaultAppender lib s l) = true
      ↔ s.Formatters lg.Format = none ∨ Aborts (GetLevel lib lg.Level) = true := by
  cases hf : s.Formatters lg.Format with
  | none => simp [defaultAppender, hl, hf, Aborts]
  | some fm =>
    cases hv : GetLevel lib lg.Level with
    | error e => simp [defaultAppender, hl, hf, hv, Aborts]
    | ok lvl => simp [defaultAppender_ok lib s l lg fm lvl hl hf hv, Aborts]

theorem sizeRollingFileAppender_aborts_iff (lib : Lib) (s : State) (l : Addr) (lg : Logger)
    (hl : s.heap.cell l = some lg) :
    Aborts (sizeRollingFileAppender lib s l) = true
      ↔ s.Formatters lg.Format = none ∨ Aborts (GetLevel lib lg.Level) = true := by
  cases hf : s.Formatters lg.Format with
  | none => simp [sizeRollingFileAppender, defaultAppender, hl, hf, Aborts]
  | some fm =>
    cases hv : GetLevel lib lg.Level with
    | error e => simp [sizeRollingFileAppender, defaultAppender, hl, hf, hv, Aborts]
    | ok lvl => simp [sizeRollingFileAppender_ok lib s l lg fm lvl hl hf hv, Aborts]

theorem dailyRollingFileAppender_aborts_iff (lib : Lib) (s : State) (l : Addr) (lg : Logger)
    (hl : s.heap.cell l = some lg) :
    Aborts (dailyRollingFileAppender lib s l) = true
      ↔ s.Formatters lg.Format = none ∨ Aborts (GetLevel lib lg.Level) = true := by
  cases hf : s.Formatters lg.Format with
  | none => simp [dailyRollingFileAppender, defaultAppender, hl, hf, Aborts]
  | some fm =>
    cases hv : GetLevel lib lg.Level with
    | error e => simp [dailyRollingFileAppender, defaultAppender, hl, hf, hv, Aborts]
    | ok lvl => simp [dailyRollingFileAppender_ok lib s l lg fm lvl hl hf hv, Aborts]

theorem Aborts_iff {α : Type} (r : Except Panic α) : Aborts r = true ↔ ∃ e, r = .error e := by
  cases r <;> simp [Aborts]

theorem builtinFormatters_none_iff (name : String) :
    builtinFormatters name = none
      ↔ name ∉ [FORMATTER_SIMPLE, FORMATTER_TEXT, FORMATTER_JSON] := by
  unfold builtinFormatters
  by_cases h1 : name = FORMATTER_SIMPLE
  · simp [h1]
  by_cases h2 : name = FORMATTER_TEXT
  · simp only [h2, List.mem_cons, true_or, or_true, not_true_eq_false, iff_false]
    split <;> simp
  by_cases h3 : name = FORMATTER_JSON
  · simp only [h3, List.mem_cons, true_or, or_true, not_true_eq_false, iff_false]
    split
    · simp
    · split <;> simp
  simp [h1, h2, h3]

theorem Setup_unknown_type (lib : Lib) (host : Host) (s : State) (l : Addr) (lg : Logger)
    (a : Appender) (setup : SetupRef) (hl : s.heap.cell l = some lg)
    (hT : s.Appenders lg.Type_ = none) (hD : s.Appenders APPENDER_DEFAULT = some a)
    (hS : a.Setup = some setup) :
    Logger.Setup lib host s l = setup.run lib host s l := by
  simp only [Logger.Setup, hl, hT, hD, hS]

theorem Setup_known_type (lib : Lib) (host : Host) (s : State) (l : Addr) (lg : Logger)
    (a : Appender) (setup : SetupRef) (hl : s.heap.cell l = some lg)
    (hT : s.Appenders lg.Type_ = some a) (hS : a.Setup = some setup) :
    Logger.Setup lib host s l = setup.run lib host s l := by
  simp only [Logger.Setup, hl, hT, hS]

/-- C6: with the built-in appender and formatter registries, `Setup` of an
allocated logger panics exactly when its `Format` is none of the registered
formatter names or `GetLevel` panics on its `Level`, that is, when the
lower-cased `Level` is not a name the level parser accepts; and for a logger
whose `Type` is not a key of the appender registry, `Setup` returns what
`defaultAppender` returns for it. -/
theorem Setup_aborts_iff (lib : Lib) (host : Host) (s : State) (l : Addr) (lg : Logger)
    (hA : s.Appenders = builtinAppenders) (hF : s.Formatters = builtinFormatters)
    (hl : s.heap.cell l = some lg) :
    (Aborts (Logger.Setup lib host s l) = true
      ↔ lg.Format ∉ [FORMATTER_SIMPLE, FORMATTER_TEXT, FORMATTER_JSON]
        ∨ Aborts (GetLevel lib lg.Level) = true) ∧
    (Aborts (GetLevel lib lg.Level) = true ↔ lib.toLower lg.Level ∉ levelNames) ∧
    (s.Appenders lg.Type_ = none → Logger.Setup lib host s l = defaultAppender lib s l) := by
  have hD : s.Appenders APPENDER_DEFAULT
      = some { Name := APPENDER_DEFAULT, Setup := some .defaultAppender } := by
    rw [hA]; rfl
  refine ⟨?_, ?_, ?_⟩
  · rw [← builtinFormatters_none_iff, ← hF]
    by_cases h1 : lg.Type_ = APPENDER_DEFAULT
    · rw [Setup_known_type lib host s l lg _ .defaultAppender hl (by rw [h1]; exact hD) rfl]
      exact defaultAppender_aborts_iff lib s l lg hl
    by_cases h2 : lg.Type_ = APPENDER_SIZE
    · have hT : s.Appenders lg.Type_
          = some { Name := APPENDER_SIZE, Setup := some .sizeRollingFileAppender } := by
        rw [hA, h2]; rfl
      rw [Setup_known_type lib host s l lg _ .sizeRollingFileAppender hl hT rfl]
      exact sizeRollingFileAppender_aborts_iff lib s l lg hl
    by_cases h3 : lg.Type_ = APPENDER_DAILY
    · have hT : s.Appenders lg.Type_
          = some { Name := APPENDER_DAILY, Setup := some .dailyRollingFileAppender } := by
        rw [hA, h3]; rfl
      rw [Setup_known_type lib host s l lg _ .dailyRollingFileAppender hl hT rfl]
      exact dailyRollingFileAppender_aborts_iff lib s l lg hl
    have hT : s.Appenders lg.Type_ = none := by
      rw [hA]; simp [builtinAppenders, h1, h2, h3]
    rw [Setup_unknown_type lib host s l lg _ .defaultAppender hl hT hD rfl]
    exact defaultAppender_aborts_iff lib s l lg hl
  · rw [Aborts_iff]
    exact GetLevel_error_iff lib lg.Level
  · intro hT
    exact Setup_unknown_type lib host s l lg _ .defaultAppender hl hT hD rfl

/-- C6 at a concrete state: the built-in registries and the logger `svc`,
whose format and level are registered names, so that `Setup` does not panic. -/
theorem Setup_aborts_iff_witness :
    (State.init svcHeap).Appenders = builtinAppenders ∧
    (State.init svcHeap).Formatters = builtinFormatters ∧
    (State.init svcHeap).heap.cell 1 = some svcLogger ∧
    Aborts (Logger.Setup Lib.ascii noHost (State.init svcHeap) 1) = false := by
  refine ⟨rfl, rfl, rfl, ?_⟩
  have h := (Setup_aborts_iff Lib.ascii noHost (State.init svcHeap) 1 svcLogger rfl rfl rfl).1
  cases hA : Aborts (Logger.Setup Lib.ascii noHost (State.init svcHeap) 1) with
  | false => rfl
  | true =>
    exfalso
    have := h.1 hA
    revert this
    decide

/-! ### Registration -/

theorem builtin_run_ok (lib : Lib) (host : Host) (setup : SetupRef) (s : State) (l : Addr)
    (lg : Logger) (fm : Formatter) (lvl : Level) (hb : ∀ id, setup ≠ .host id)
    (hl : s.heap.cell l = some lg) (hf : s.Formatters lg.Format = some fm)
    (hv : GetLevel lib lg.Level = .ok lvl) :
    setup.run lib host s l
      = .ok ({ s with heap := heapByBuiltin lib setup s.heap lg l fm lvl }, some l) := by
  cases setup with
  | defaultAppender => exact defaultAppender_ok lib s l lg fm lvl hl hf hv
  | sizeRollingFileAppender => exact sizeRollingFileAppender_ok lib s l lg fm lvl hl hf hv
  | dailyRollingFileAppender => exact dailyRollingFileAppender_ok lib s l lg fm lvl hl hf hv
  | host id => exact absurd rfl (hb id)

theorem heapByBuiltin_cell (lib : Lib) (setup : SetupRef) (h : Heap) (lg : Logger) (l : Addr)
    (fm : Formatter) (lvl : Level) (hb : ∀ id, setup ≠ .host id) :
    ∃ lg2 log, (heapByBuiltin lib setup h lg l fm lvl).cell l = some lg2 ∧
      lg2.logrus = some log ∧ log.Formatter = fm.Formatter ∧ log.Level = lvl ∧
      lg2.Call = some (.ofDefaultAppender l) ∧ lg2.Callf = some (.ofDefaultAppender l) ∧
      lg2.Name = lg.Name ∧ lg2.AddFileInfo = lg.AddFileInfo ∧ lg2.Type_ = lg.Type_ ∧
      lg2.Level = lg.Level ∧ lg2.Format = lg.Format := by
  cases setup with
  | defaultAppender =>
    exact ⟨_, _, Heap.set_cell_self _ _ _, rfl, rfl, rfl, rfl, rfl, rfl, rfl, rfl, rfl, rfl⟩
  | sizeRollingFileAppender =>
    exact ⟨_, _, Heap.set_cell_self _ _ _, rfl, rfl, rfl, rfl, rfl, rfl, rfl, rfl, rfl, rfl⟩
  | dailyRollingFileAppender =>
    exact ⟨_, _, Heap.set_cell_self _ _ _, rfl, rfl, rfl, rfl, rfl, rfl, rfl, rfl, rfl, rfl⟩
  | host id => exact absurd rfl (hb id)

theorem loop_cons (lib : Lib) (host : Host) (s : State) (p : Addr) (rest : List Addr) :
    Configure.loop lib host s (p :: rest) =
      match Configure.step lib host s p with
      | .error e => .error e
      | .ok s1 => Configure.loop lib host s1 rest := rfl

theorem GetLevel_Info (lib : Lib) (h : lib.toLower "Info" = "info") :
    GetLevel lib "Info" = .ok .InfoLevel := by
  unfold GetLevel
  rw [h]
  rfl

theorem GetLogger_found (lib : Lib) (host : Host) (s : State) (name : String) (l : Addr)
    (h : s.loggers name = some l) : GetLogger lib host s name = .ok (s, l) := by
  simp only [GetLogger, h]

theorem heapByBuiltin_other (lib : Lib) (setup : SetupRef) (h : Heap) (lg : Logger) (l a : Addr)
    (fm : Formatter) (lvl : Level) (ha : a ≠ l) :
    (heapByBuiltin lib setup h lg l fm lvl).cell a = h.cell a := by
  cases setup <;>
    simp [heapByBuiltin, heapBySize, heapByDaily, Heap.set_cell_other, ha]

theorem GetLogger_fresh (lib : Lib) (host : Host) (s : State) (name : String) (a : Appender)
    (setup : SetupRef) (fm : Formatter)
    (hlow : lib.toLower "Info" = "info") (habs : s.loggers name = none)
    (hA : s.Appenders APPENDER_DEFAULT = some a) (hS : a.Setup = some setup)
    (hb : ∀ id, setup ≠ .host id) (hF : s.Formatters FORMATTER_TEXT = some fm) :
    GetLogger lib host s name =
      .ok ({ s with
              heap := heapAfterGetLogger lib setup s name fm
              loggers := fun n => if n = name then some s.heap.next else s.loggers n },
           s.heap.next) := by
  have hv := GetLevel_Info lib hlow
  have hcell : (s.heap.alloc (defaultLogger name)).2.cell s.heap.next
      = some (defaultLogger name) := by simp [Heap.alloc]
  have hrun := builtin_run_ok lib host setup { s with heap := (s.heap.alloc (defaultLogger name)).2 }
    s.heap.next (defaultLogger name) fm .InfoLevel hb hcell hF hv
  have hsetup : Logger.Setup lib host { s with heap := (s.heap.alloc (defaultLogger name)).2 }
      s.heap.next
      = .ok ({ s with heap := heapAfterGetLogger lib setup s name fm }, some s.heap.next) := by
    rw [Setup_known_type lib host { s with heap := (s.heap.alloc (defaultLogger name)).2 }
      s.heap.next (defaultLogger name) a setup hcell hA hS, hrun]
    rfl
  obtain ⟨lg2, log, hc2, _, _, _, _, _, _, _, _, hlevel, _⟩ :=
    heapByBuiltin_cell lib setup (s.heap.alloc (defaultLogger name)).2 (defaultLogger name)
      s.heap.next fm .InfoLevel hb
  have hstep : Configure.step lib host { s with heap := (s.heap.alloc (defaultLogger name)).2 }
      s.heap.next
      = .ok { s with
              heap := heapAfterGetLogger lib setup s name fm
              loggers := fun n => if n = name then some s.heap.next else s.loggers n } := by
    unfold Configure.step
    simp only [hcell, hsetup]
    have hc3 : (heapAfterGetLogger lib setup s name fm).cell s.heap.next = some lg2 := hc2
    have hv2 : GetLevel lib lg2.Level = .ok .InfoLevel := by rw [hlevel]; exact hv
    by_cases hD : s.DEBUG = true
    · simp [hD, hc3, hv2, defaultLogger]
    · simp [hD, defaultLogger]
  unfold GetLogger
  simp only [habs]
  show (match Configure lib host { s with heap := (s.heap.alloc (defaultLogger name)).2 }
      [s.heap.next] with
    | .error e => (.error e : Except Panic (State × Addr))
    | .ok (s1, _) => .ok (s1, s.heap.next)) = _
  unfold Configure
  rw [loop_cons, hstep]
  rfl

/-- With any of the three built-in setup functions registered under
`APPENDER_DEFAULT` and a formatter registered under `FORMATTER_TEXT`,
`GetLogger` of an absent name returns a newly allocated, wired logger with
that name, the type `APPENDER_DEFAULT`, the level `Info` and the format
`FORMATTER_TEXT`; the registry then maps the name to the returned logger and
every other name as before; and a second `GetLogger` of the name returns the
same logger and leaves the state unchanged. -/
theorem GetLogger_builtin (lib : Lib) (host : Host) (s : State) (name : String) (a : Appender)
    (setup : SetupRef) (fm : Formatter)
    (hlow : lib.toLower "Info" = "info") (habs : s.loggers name = none)
    (hA : s.Appenders APPENDER_DEFAULT = some a) (hS : a.Setup = some setup)
    (hb : ∀ id, setup ≠ .host id) (hF : s.Formatters FORMATTER_TEXT = some fm) :
    ∃ s1 l lg, GetLogger lib host s name = .ok (s1, l) ∧ l = s.heap.next ∧
      s1.heap.cell l = some lg ∧
      lg.Name = name ∧ lg.Type_ = APPENDER_DEFAULT ∧ lg.Level = "Info" ∧
      lg.Format = FORMATTER_TEXT ∧ Wired s1.heap l = true ∧
      s1.loggers name = some l ∧ (∀ n, n ≠ name → s1.loggers n = s.loggers n) ∧
      (∀ p, p ≠ l → s1.heap.cell p = s.heap.cell p) ∧
      s1.Appenders = s.Appenders ∧ s1.Formatters = s.Formatters ∧
      GetLogger lib host s1 name = .ok (s1, l) := by
  obtain ⟨lg2, log, hc2, hlog, _, _, _, _, hname, _, htype, hlevel, hformat⟩ :=
    heapByBuiltin_cell lib setup (s.heap.alloc (defaultLogger name)).2 (defaultLogger name)
      s.heap.next fm .InfoLevel hb
  refine ⟨_, _, lg2, GetLogger_fresh lib host s name a setup fm hlow habs hA hS hb hF, rfl, hc2,
    hname, htype, hlevel, hformat, ?_, ?_, ?_, ?_, rfl, rfl, ?_⟩
  · have hc3 : (heapAfterGetLogger lib setup s name fm).cell s.heap.next = some lg2 := hc2
    simp [Wired, hc3, hlog]
  · simp
  · intro n hn
    simp [hn]
  · intro p hp
    show (heapAfterGetLogger lib setup s name fm).cell p = _
    unfold heapAfterGetLogger
    rw [heapByBuiltin_other lib setup _ _ _ p _ _ hp]
    simp [Heap.alloc, hp]
  · apply GetLogger_found
    simp

/-- C4, the code at the failing input: once `AddAppender` has registered, under
the name of the default appender, a host setup that returns a wired copy of
the logger it is given, `GetLogger` of the absent name `x` returns the logger
it allocated (address 1, left unwired) while the registry maps `x` to the
copy (address 2), and a second `GetLogger` of `x` returns the copy. -/
theorem GetLogger_returns_unregistered :
    copyingState.loggers "x" = none ∧
    GetLogger Lib.ascii (exampleHost Lib.ascii) copyingState "x"
      = .ok (copyingAfter Lib.ascii, 1) ∧
    (copyingAfter Lib.ascii).loggers "x" = some 2 ∧
    Wired (copyingAfter Lib.ascii).heap 1 = false ∧
    Wired (copyingAfter Lib.ascii).heap 2 = true ∧
    GetLogger Lib.ascii (exampleHost Lib.ascii) (copyingAfter Lib.ascii) "x"
      = .ok (copyingAfter Lib.ascii, 2) :=
  ⟨rfl, rfl, rfl, rfl, rfl, rfl⟩

/-! ### The synchronous leveled methods -/

theorem defaultAppender_wires (lib : Lib) (s s' : State) (l : Addr) (r : Option Addr)
    (h : defaultAppender lib s l = .ok (s', r)) :
    r = some l ∧ ∃ lg0 lg log, s.heap.cell l = some lg0 ∧ WiredByBuiltin s'.heap l lg log ∧
      lg.AddFileInfo = lg0.AddFileInfo ∧ log.Out = .stderr := by
  obtain ⟨lg, fm, lvl, hl, _, _, hh, hr⟩ := defaultAppender_ok_inv lib s s' l r h
  subst hh
  exact ⟨hr, lg, wiredBy lg l fm lvl, _, hl, ⟨Heap.set_cell_self _ _ _, rfl, rfl, rfl⟩, rfl, rfl⟩

theorem sizeRollingFileAppender_wires (lib : Lib) (s s' : State) (l : Addr) (r : Option Addr)
    (h : sizeRollingFileAppender lib s l = .ok (s', r)) :
    r = some l ∧ ∃ lg0 lg log, s.heap.cell l = some lg0 ∧ WiredByBuiltin s'.heap l lg log ∧
      lg.AddFileInfo = lg0.AddFileInfo := by
  obtain ⟨lg, fm, lvl, hl, _, _, hh, hr⟩ := sizeRollingFileAppender_ok_inv lib s s' l r h
  subst hh
  exact ⟨hr, lg, wiredBySize lib lg l fm lvl, _, hl,
    ⟨Heap.set_cell_self _ _ _, rfl, rfl, rfl⟩, rfl⟩

theorem dailyRollingFileAppender_wires (lib : Lib) (s s' : State) (l : Addr) (r : Option Addr)
    (h : dailyRollingFileAppender lib s l = .ok (s', r)) :
    r = some l ∧ ∃ lg0 lg log, s.heap.cell l = some lg0 ∧ WiredByBuiltin s'.heap l lg log ∧
      lg.AddFileInfo = lg0.AddFileInfo := by
  obtain ⟨lg, fm, lvl, hl, _, _, hh, hr⟩ := dailyRollingFileAppender_ok_inv lib s s' l r h
  subst hh
  exact ⟨hr, lg, wiredByDaily lg l fm lvl, _, hl,
    ⟨Heap.set_cell_self _ _ _, rfl, rfl, rfl⟩, rfl⟩

theorem invokeCall_builtin (lib : Lib) (heap : Heap) (l : Addr) (lg : Logger) (log : LogrusLogger)
    (hw : WiredByBuiltin heap l lg log) (name : String) (lvl : Level)
    (hm : MethodByName name = some (.emit lvl .plain)) (options : Option Fields)
    (messages : List String) :
    lg.invokeCall lib heap name options messages =
      .ok { logger := log, level := lvl, message := Join messages " ",
            data := options.getD [] } := by
  obtain ⟨hl, hC, _, hlog⟩ := hw
  simp only [Logger.invokeCall, hC, CallMethod, hl, hlog, hm, Style.message]

theorem invokeCallf_builtin (lib : Lib) (heap : Heap) (l : Addr) (lg : Logger)
    (log : LogrusLogger) (hw : WiredByBuiltin heap l lg log) (name : String) (lvl : Level)
    (hm : MethodByName name = some (.emit lvl .plain)) (options : Option Fields)
    (format : String) (args : List Value) :
    lg.invokeCallf lib heap name options format args =
      .ok { logger := log, level := lvl, message := lib.sprintf format args,
            data := options.getD [] } := by
  obtain ⟨hl, _, hC, hlog⟩ := hw
  simp only [Logger.invokeCallf, hC, CallMethod, hl, hlog, hm, Style.message]


theorem Configure_svc (lib : Lib) (host : Host) (hlow : lib.toLower "Info" = "info") :
    Configure lib host (State.init svcHeap) [1] = .ok (svcState, .Logging) := by
  have hv := GetLevel_Info lib hlow
  have hcell : (State.init svcHeap).heap.cell 1 = some svcLogger := rfl
  have hd := defaultAppender_ok lib (State.init svcHeap) 1 svcLogger simpleFormatter
    .InfoLevel hcell rfl hv
  have hsetup : Logger.Setup lib host (State.init svcHeap) 1
      = .ok ({ State.init svcHeap with
                heap := svcHeap.set 1 (wiredBy svcLogger 1 simpleFormatter .InfoLevel) },
             some 1) := by
    rw [Setup_known_type lib host (State.init svcHeap) 1 svcLogger
      { Name := APPENDER_DEFAULT, Setup := some .defaultAppender } .defaultAppender
      hcell rfl rfl]
    exact hd
  have hstep : Configure.step lib host (State.init svcHeap) 1 = .ok svcState := by
    unfold Configure.step
    simp only [hcell, hsetup]
    rfl
  unfold Configure
  rw [loop_cons, hstep]
  rfl

theorem svc_render (lib : Lib) (now : Nat) :
    EntryCall.bytes lib now
        { logger := { Out := .stderr, Formatter := some (.simple {}), Level := .InfoLevel },
          level := .InfoLevel, message := "started", data := [("user", .str "a")] }
      = some ("[" ++ lib.timeFormat now defaultTimestampFormat ++ "] [INFO] started user=a\n") := by
  have hu : ToUpper Level.InfoLevel.String = "INFO" := by decide
  simp only [EntryCall.bytes, le_refl, if_true, LogrusFormatter.Format, Option.map_some',
    Format_eq, SimpleFormatter.preamble, hu, Option.some.injEq]
  apply String.ext
  simp [SimpleFormatter.tokens, SimpleFormatter.rendered, SimpleFormatter.reserved,
    SimpleFormatter.token, Value.fmtS]


/-- C2: on a logger wired by a built-in appender (its function fields are the
closures of `defaultAppender`, it holds a logrus logger) with `AddFileInfo`
false, each synchronous method returns after one call of the entry operation
of its own level, on that logrus logger, with the message parts joined by
single spaces (or, for the `f` methods, the message `Sprintf` formats) and
with the given fields; and on the logger `svc` configured with the default
appender, the simple formatter and the level Info, `InfoSync` with the field
`user=a` and the message `started` hands the sink the bytes
`[<timestamp>] [INFO] started user=a` and a newline, the timestamp in the
RFC 3339 layout. -/
theorem Sync_emits (lib : Lib) (host : Host) (heap : Heap) (stack : List Frame) (l : Addr)
    (lg : Logger)
    (log : LogrusLogger) (options : Option Fields) (messages : List String) (format : String)
    (args : List Value) (now : Nat)
    (hw : WiredByBuiltin heap l lg log) (hfi : lg.AddFileInfo = false) :
    Logger.DebugSync lib heap stack l options messages
      = .ok ⟨log, .DebugLevel, Join messages " ", options.getD []⟩ ∧
    Logger.InfoSync lib heap stack l options messages
      = .ok ⟨log, .InfoLevel, Join messages " ", options.getD []⟩ ∧
    Logger.WarnSync lib heap stack l options messages
      = .ok ⟨log, .WarnLevel, Join messages " ", options.getD []⟩ ∧
    Logger.ErrorSync lib heap stack l options messages
      = .ok ⟨log, .ErrorLevel, Join messages " ", options.getD []⟩ ∧
    Logger.FatalSync lib heap stack l options messages
      = .ok ⟨log, .FatalLevel, Join messages " ", options.getD []⟩ ∧
    Logger.DebugfSync lib heap stack l options format args
      = .ok ⟨log, .DebugLevel, lib.sprintf format args, options.getD []⟩ ∧
    Logger.InfofSync lib heap stack l options format args
      = .ok ⟨log, .InfoLevel, lib.sprintf format args, options.getD []⟩ ∧
    Logger.WarnfSync lib heap stack l options format args
      = .ok ⟨log, .WarnLevel, lib.sprintf format args, options.getD []⟩ ∧
    Logger.ErrorfSync lib heap stack l options format args
      = .ok ⟨log, .ErrorLevel, lib.sprintf format args, options.getD []⟩ ∧
    Logger.FatalfSync lib heap stack l options format args
      = .ok ⟨log, .FatalLevel, lib.sprintf format args, options.getD []⟩ ∧
    (lib.toLower "Info" = "info" →
      ∃ s c, Configure lib host (State.init svcHeap) [1] = .ok (s, .Logging) ∧
        s.loggers "svc" = some 1 ∧
        Logger.InfoSync lib s.heap stack 1 (some [("user", .str "a")]) ["started"] = .ok c ∧
        c.bytes lib now
          = some ("[" ++ lib.timeFormat now "2006-01-02T15:04:05Z07:00"
              ++ "] [INFO] started user=a\n")) := by
  have hl := hw.1
  have ho : lg.addFileInfo stack options = options := by simp [Logger.addFileInfo, hfi]
  refine ⟨?_, ?_, ?_, ?_, ?_, ?_, ?_, ?_, ?_, ?_, ?_⟩
  · simp only [Logger.DebugSync, hl, ho]
    exact invokeCall_builtin lib heap l lg log hw "Debug" .DebugLevel (by decide) _ _
  · simp only [Logger.InfoSync, hl, ho]
    exact invokeCall_builtin lib heap l lg log hw "Info" .InfoLevel (by decide) _ _
  · simp only [Logger.WarnSync, hl, ho]
    exact invokeCall_builtin lib heap l lg log hw "Warn" .WarnLevel (by decide) _ _
  · simp only [Logger.ErrorSync, hl, ho]
    exact invokeCall_builtin lib heap l lg log hw "Error" .ErrorLevel (by decide) _ _
  · simp only [Logger.FatalSync, hl, ho]
    exact invokeCall_builtin lib heap l lg log hw "Fatal" .FatalLevel (by decide) _ _
  · simp only [Logger.DebugfSync, hl, ho]
    exact invokeCallf_builtin lib heap l lg log hw "Debug" .DebugLevel (by decide) _ _ _
  · simp only [Logger.InfofSync, hl, ho]
    exact invokeCallf_builtin lib heap l lg log hw "Info" .InfoLevel (by decide) _ _ _
  · simp only [Logger.WarnfSync, hl, ho]
    exact invokeCallf_builtin lib heap l lg log hw "Warn" .WarnLevel (by decide) _ _ _
  · simp only [Logger.ErrorfSync, hl, ho]
    exact invokeCallf_builtin lib heap l lg log hw "Error" .ErrorLevel (by decide) _ _ _
  · simp only [Logger.FatalfSync, hl, ho]
    exact invokeCallf_builtin lib heap l lg log hw "Fatal" .FatalLevel (by decide) _ _ _
  · intro hlow
    have hw2 : WiredByBuiltin svcState.heap 1
        (wiredBy svcLogger 1 simpleFormatter .InfoLevel)
        { Out := .stderr, Formatter := some (.simple {}), Level := .InfoLevel } :=
      ⟨rfl, rfl, rfl, rfl⟩
    refine ⟨svcState, _, Configure_svc lib host hlow, rfl, ?_, svc_render lib now⟩
    have hc : svcState.heap.cell 1
        = some (wiredBy svcLogger 1 simpleFormatter .InfoLevel) := rfl
    simp only [Logger.InfoSync, hc]
    exact invokeCall_builtin lib _ 1 _ _ hw2 "Info" .InfoLevel (by decide) _ _

/-- C2 at a concrete input: the logger `svc` wired by `defaultAppender`, the
field `user=a` and the message parts `started` and `now`. -/
theorem Sync_emits_witness :
    WiredByBuiltin svcState.heap 1 (wiredBy svcLogger 1 simpleFormatter .InfoLevel)
      { Out := .stderr, Formatter := some (.simple {}), Level := .InfoLevel } ∧
    (wiredBy svcLogger 1 simpleFormatter .InfoLevel).AddFileInfo = false ∧
    Lib.ascii.toLower "Info" = "info" ∧
    (Logger.WarnSync Lib.ascii svcState.heap [] 1 (some [("user", .str "a")])
        ["started", "now"]).map (fun c => (c.level, c.message, c.data))
      = .ok (.WarnLevel, "started now", [("user", .str "a")]) :=
  ⟨⟨rfl, rfl, rfl, rfl⟩, rfl, by decide,
   (congrArg (fun r => r.map (fun c => (c.level, c.message, c.data)))
      (Sync_emits Lib.ascii noHost svcState.heap [] 1
        (wiredBy svcLogger 1 simpleFormatter .InfoLevel)
        { Out := .stderr, Formatter := some (.simple {}), Level := .InfoLevel }
        (some [("user", .str "a")]) ["started", "now"] "" [] 0
        ⟨rfl, rfl, rfl, rfl⟩ rfl).2.2.1).trans (by decide)⟩

end Ruslog
